import Mathlib

/-!
Verification of the `lsp` S-expression language runtime (src/core.c).

The C program works on a heap of `Object` nodes addressed by pointers and on
environment frames holding name-to-object bindings.  We embed it shallowly:

* addresses are natural numbers indexing into `St.objs`;
* the two singleton atoms `Nil` and `True` live at the fixed addresses 0 and 1
  (the C code compares against these singletons by pointer identity);
* C `int` arithmetic is modelled on `Int` with an explicit two's-complement
  wrap `tc32` at width 32 where the code can overflow;
* fallible execution returns a result in `Res`: `ok` carries the new state and
  the returned address, `err` models the fatal `err()` call (prints and exits),
  `crash` models undefined behaviour that dereferences an invalid or null
  pointer, and `timeout` is fuel exhaustion of the embedding (the C code
  diverges, e.g. `while` loops and cyclic lists).

The hash table implementation (`ht_create`/`ht_insert`/`ht_lookup`) and the
`Object` struct layout live in files that are not part of `src/` (core.h and
the hash table unit).  Modelled from the spec: frames are association lists,
`bind` inserts (prepends, shadowing any previous entry of the same name) into
the current frame only, and `lookup` takes the first match (spec section 4.2).
Reads of `car`/`cdr`/`name` fields of objects of the wrong tag depend on the
unknown struct layout; the static singletons are zero-initialised, so such
reads yield null or garbage pointers whose dereference we model as `crash`.
-/

namespace Lsp

/-- Names of the built-in primitives registered by `env_init`. -/
inductive PrimName
  | pAnd | pOr | pCar | pCdr | pCons | pDefine | pDefun | pEq | pGt | pIf
  | pLt | pLambda | pMinus | pMulti | pObjEq | pPlus | pPrintln | pProgn
  | pSetcar | pQuote | pWhile
deriving DecidableEq

/-- One heap node, mirroring the tagged union `Object` of core.c.
`cons` and `func` hold heap addresses; `prim` holds the primitive name
(the C code stores a function pointer). -/
inductive Obj
  | int (i : Int)
  | sym (s : String)
  | cons (car cdr : Nat)
  | nil
  | tru
  | prim (p : PrimName)
  | func (params body : Nat)
deriving DecidableEq

/-- One environment frame: an association list of bindings plus an optional
parent frame (an index into `St.envs`).  Modelled from the spec: the hash
table unit is not in src/, section 4.2 specifies insert-or-overwrite in the
current frame and first-match lookup with recursion to the parent. -/
structure Frame where
  tbl : List (String × Nat)
  parent : Option Nat
deriving DecidableEq

/-- Global machine state: the object heap, the environment frames, the text
printed so far, and a ghost flag `mutFlag` that records whether an operation
that overwrites a field of an already-existing cons cell (`setcar`'s
`args->car->car = ...` or `defun`'s `args->cdr = cons(fn, Nil)`) has run.
The flag changes no behaviour; it only instruments mutation for theorems. -/
structure St where
  objs : List Obj
  envs : List Frame
  out : String
  mutFlag : Bool
deriving DecidableEq

/-- Address of the `Nil` singleton. -/
def nilA : Nat := 0

/-- Address of the `True` singleton. -/
def trueA : Nat := 1

/-- Result of running a piece of the interpreter. -/
inductive Res (α : Type)
  | ok (s : St) (v : α)
  | err (msg : String)
  | crash
  | timeout
deriving DecidableEq

/-- Sequencing of results, threading the state. -/
def rbind {α β : Type} (r : Res α) (k : St → α → Res β) : Res β :=
  match r with
  | .ok s v => k s v
  | .err m => .err m
  | .crash => .crash
  | .timeout => .timeout

/-- Dereference a heap address. -/
def getObj (s : St) (a : Nat) : Option Obj := s.objs.get? a

/-- `new_object`/`cons`: allocate a fresh node at the end of the heap. -/
def alloc (s : St) (o : Obj) : St × Nat :=
  ({ s with objs := s.objs ++ [o] }, s.objs.length)

/-- Overwrite the node at an existing address (pointer-level mutation). -/
def setObj (s : St) (a : Nat) (o : Obj) : St :=
  { s with objs := s.objs.set a o }

/-- `ht_insert` into the frame `e`.  Modelled from the spec (section 4.2):
insert-or-overwrite in the current frame, realised as a shadowing prepend. -/
def insertFrame (s : St) (e : Nat) (k : String) (v : Nat) : St :=
  match s.envs.get? e with
  | some f => { s with envs := s.envs.set e ⟨(k, v) :: f.tbl, f.parent⟩ }
  | none => s

/-- Two's-complement wrap at 32 bits, modelling C `int` overflow. -/
def tc32 (x : Int) : Int := (x + 2 ^ 31) % 2 ^ 32 - 2 ^ 31

/-- `count` (core.c:36): walk the `cdr` chain counting cons cells; the result
is the count if the terminal node is the `Nil` singleton and `-1` otherwise.
`none` models divergence on a cyclic chain (and the unreachable dereference of
a dangling address). -/
def countAux : Nat → St → Nat → Option Int
  | 0, _, _ => none
  | n + 1, s, a =>
    match getObj s a with
    | some (.cons _ d) =>
      match countAux n s d with
      | some r => some (if r < 0 then r else r + 1)
      | none => none
    | some _ => some (if a = nilA then 0 else -1)
    | none => none

/-- `count` with enough steps for any acyclic chain in the heap. -/
def count (s : St) (a : Nat) : Option Int := countAux (s.objs.length + 1) s a

/-- `env_lookup` (core.c:562): first match in the current frame, else the
parent chain, else the fatal `Undefined symbol` error.  `some (some v)` is a
hit, `some none` the error, `none` fuel exhaustion (unreachable: parent
indices always decrease).  Modelled from the spec for `ht_lookup`. -/
def lookAux : Nat → St → Nat → String → Option (Option Nat)
  | 0, _, _, _ => none
  | n + 1, s, e, nm =>
    match s.envs.get? e with
    | some f =>
      match f.tbl.find? (fun p => p.1 == nm) with
      | some p => some (some p.2)
      | none =>
        match f.parent with
        | some par => lookAux n s par nm
        | none => some none
    | none => none

/-- `env_lookup` with enough steps for any parent chain. -/
def env_lookup (s : St) (e : Nat) (nm : String) : Option (Option Nat) :=
  lookAux (s.envs.length + 1) s e nm

/-- The parameter check loop of `create_function` (core.c:291): every `car`
of the cons chain must be a symbol; a non-cons terminator stops the loop.
`some true` means the check passed, `some false` that a non-symbol parameter
was found, `none` divergence on a cyclic chain. -/
def checkParamsAux : Nat → St → Nat → Option Bool
  | 0, _, _ => none
  | n + 1, s, a =>
    match getObj s a with
    | some (.cons h t) =>
      match getObj s h with
      | some (.sym _) => checkParamsAux n s t
      | some _ => some false
      | none => none
    | some _ => some true
    | none => none

/-- `create_function` (core.c:290): validate the parameters, then allocate a
closure object.  The body is not inspected at all. -/
def create_function (s : St) (params body : Nat) : Res Nat :=
  match checkParamsAux (s.objs.length + 1) s params with
  | some true =>
    let r := alloc s (.func params body)
    .ok r.1 r.2
  | some false => .err "function parameter must be a symbol"
  | none => .timeout

/-- `primitive_lambda` (core.c:398): `create_function(args->car, args->cdr)`.
When `args` is not a cons cell the C code reads garbage fields (`Nil`'s
zero-initialised slots), which we model as `crash`. -/
def primitive_lambda (s : St) (args : Nat) : Res Nat :=
  match getObj s args with
  | some (.cons pa bd) => create_function s pa bd
  | _ => .crash

/-- The parameter-binding loop of `apply` (core.c:237): walk the parameter
chain, inserting each parameter name bound to the corresponding evaluated
argument into the new frame.  When the arguments run out first, the C code
inserts null pointers read from `Nil`'s zero-initialised fields; any use of
such a binding dereferences null, modelled as `crash`. -/
def bindAux : Nat → St → Nat → Nat → Nat → Res Unit
  | 0, _, _, _, _ => .timeout
  | n + 1, s, eid, params, args =>
    match getObj s params with
    | some (.cons ph pt) =>
      match getObj s ph with
      | some (.sym nm) =>
        match getObj s args with
        | some (.cons ah at') => bindAux n (insertFrame s eid nm ah) eid pt at'
        | _ => .crash
      | _ => .crash
    | some _ => .ok s ()
    | none => .crash

/-- The binding loop with enough steps for any acyclic parameter chain
(`insertFrame` never changes the heap, so the bound stays valid). -/
def bindParams (s : St) (eid params args : Nat) : Res Unit :=
  bindAux (s.objs.length + 1) s eid params args

/-- Result of a pure arithmetic fold over an evaluated argument list. -/
inductive PRes (α : Type)
  | okv (v : α)
  | errv (m : String)
  | crashv
  | toutv
deriving DecidableEq

/-- The summation loop of `primitive_plus` (core.c:457): every element must
be an integer, the sum wraps like C `int`. -/
def sumAux : Nat → St → Nat → Int → PRes Int
  | 0, _, _, _ => .toutv
  | n + 1, s, a, acc =>
    if a = nilA then .okv acc
    else
      match getObj s a with
      | some (.cons h t) =>
        match getObj s h with
        | some (.int i) => sumAux n s t (tc32 (acc + i))
        | some _ => .errv "+ accepts only integers"
        | none => .crashv
      | some _ => .crashv
      | none => .crashv

/-- The subtraction loop of `primitive_minus` after the first element
(core.c:417); note the error message says `+` in the source. -/
def subAux : Nat → St → Nat → Int → PRes Int
  | 0, _, _, _ => .toutv
  | n + 1, s, a, acc =>
    if a = nilA then .okv acc
    else
      match getObj s a with
      | some (.cons h t) =>
        match getObj s h with
        | some (.int i) => subAux n s t (tc32 (acc - i))
        | some _ => .errv "+ accepts only integers"
        | none => .crashv
      | some _ => .crashv
      | none => .crashv

/-- The product loop of `primitive_multi` after the first element
(core.c:439). -/
def mulAux : Nat → St → Nat → Int → PRes Int
  | 0, _, _, _ => .toutv
  | n + 1, s, a, acc =>
    if a = nilA then .okv acc
    else
      match getObj s a with
      | some (.cons h t) =>
        match getObj s h with
        | some (.int i) => mulAux n s t (tc32 (acc * i))
        | some _ => .errv "* accepts only integers"
        | none => .crashv
      | some _ => .crashv
      | none => .crashv

/-- The character of a decimal digit (the `'0' + d` of printf). -/
def digCh : Nat → Char
  | 0 => '0' | 1 => '1' | 2 => '2' | 3 => '3' | 4 => '4'
  | 5 => '5' | 6 => '6' | 7 => '7' | 8 => '8' | _ => '9'

/-- Decimal digits of a natural number, most significant first, with an
explicit step bound so the definition is structural (any bound above the
number of digits gives the same list). -/
def natCharsAux : Nat → Nat → List Char
  | 0, _ => []
  | f + 1, n =>
    if n < 10 then [digCh n]
    else natCharsAux f (n / 10) ++ [digCh (n % 10)]

/-- Decimal digits of a natural number, most significant first. -/
def natChars (n : Nat) : List Char := natCharsAux (n + 1) n

/-- The text `printf("%d", i)` produces, as a character list. -/
def intChars (i : Int) : List Char :=
  if i < 0 then '-' :: natChars i.natAbs else natChars i.toNat

/-- `print` (core.c:249) on the heap: integers in decimal, symbols by name,
the atoms as `Nil`/`True`, callables as opaque placeholders, cons chains as
a parenthesised space-separated element list.  The boolean selects between
printing one value (`false`) and printing the tail of a list being walked by
the loop at core.c:259 (`true`).  When the loop reaches a terminal `cdr`
that is neither a cons cell nor `Nil`, the C code reads `o->car` of a
non-cons node, which depends on the `Object` layout in the missing core.h;
modelled from the spec (section 4.5): an improper tail prints its `cdr` as
the final element.  `none` models divergence on cyclic structures. -/
def hpAux : Nat → Bool → St → Nat → Option String
  | 0, _, _, _ => none
  | n + 1, false, s, a =>
    match getObj s a with
    | some (.int i) => some (String.mk (intChars i))
    | some (.sym nm) => some nm
    | some (.cons _ _) =>
      match hpAux n true s a with
      | some body => some ("(" ++ body ++ ")")
      | none => none
    | some .nil => some "Nil"
    | some .tru => some "True"
    | some (.prim _) => some "<primitive>"
    | some (.func _ _) => some "<function>"
    | none => none
  | n + 1, true, s, a =>
    match getObj s a with
    | some (.cons h t) =>
      match hpAux n false s h with
      | some eh =>
        if t = nilA then some eh
        else
          match hpAux n true s t with
          | some rest => some (eh ++ " " ++ rest)
          | none => none
      | none => none
    | some _ =>
      match hpAux n false s a with
      | some eh => some eh
      | none => none
    | none => none

/-- `print` of one heap value with enough depth for any acyclic structure. -/
def heapPrint (s : St) (a : Nat) : Option String :=
  hpAux (2 * s.objs.length + 2) false s a

/-- The pending work of the interpreter: one constructor per routine of the
eval/apply engine of core.c.  A single fuel-indexed step function `run`
executes them so that every definition is structurally recursive. -/
inductive Task
  | eval (s : St) (e : Nat) (a : Nat)
  | apply (s : St) (e : Nat) (fn : Nat) (args : Nat)
  | evalArgs (s : St) (e : Nat) (a : Nat)
  | evalArgsTail (s : St) (e : Nat) (a : Nat) (last first : Nat)
  | progn (s : St) (e : Nat) (a : Nat) (last : Option Nat)
  | andLoop (s : St) (e : Nat) (a : Nat)
  | orLoop (s : St) (e : Nat) (a : Nat)
  | whileLoop (s : St) (e : Nat) (c : Nat) (body : Nat)
  | prim (p : PrimName) (s : St) (e : Nat) (args : Nat)

/-- The interpreter.  Each case is a direct transcription of the
corresponding function of core.c; comments cite the source lines. -/
def run : Nat → Task → Res Nat
  | 0, _ => .timeout
  | n + 1, t =>
    match t with
    -- eval, core.c:178
    | .eval s e a =>
      match getObj s a with
      | some (.int _) => .ok s a
      | some (.func _ _) => .ok s a
      | some .tru => .ok s a
      | some .nil => .ok s a
      | some (.cons carA cdrA) =>
        rbind (run n (.eval s e carA)) fun s1 fnA =>
          match getObj s1 fnA with
          | some (.prim _) =>
            match getObj s1 cdrA with
            | some .nil => run n (.apply s1 e fnA cdrA)
            | some (.cons _ _) => run n (.apply s1 e fnA cdrA)
            | some _ => .err "Function argument must be a list"
            | none => .crash
          | some (.func _ _) =>
            match getObj s1 cdrA with
            | some .nil => run n (.apply s1 e fnA cdrA)
            | some (.cons _ _) => run n (.apply s1 e fnA cdrA)
            | some _ => .err "Function argument must be a list"
            | none => .crash
          | some _ => .err "The first element of list must be a function"
          | none => .crash
      | some (.sym nm) =>
        match env_lookup s e nm with
        | some (some v) => .ok s v
        | some none => .err ("Undefined symbol: " ++ nm)
        | none => .timeout
      -- OT_PRIMITIVE falls into eval's default case, which returns NULL;
      -- every caller dereferences the result, so this is a crash.
      | some (.prim _) => .crash
      | none => .crash
    -- apply, core.c:228
    | .apply s e f args =>
      match getObj s f with
      | some (.prim p) => run n (.prim p s e args)
      | some (.func params body) =>
        rbind (run n (.evalArgs s e args)) fun s1 vargs =>
          let eid := s1.envs.length
          let s2 : St := { s1 with envs := s1.envs ++ [⟨[], some e⟩] }
          rbind (bindParams s2 eid params vargs) fun s3 _ =>
            run n (.progn s3 eid body none)
      -- apply returns NULL for any other tag; unreachable behind eval's check
      | some _ => .crash
      | none => .crash
    -- eval_args, core.c:207
    | .evalArgs s e a =>
      if a = nilA then .ok s nilA
      else
        match getObj s a with
        | some (.cons h t) =>
          rbind (run n (.eval s e h)) fun s1 v =>
            let r := alloc s1 (.cons v nilA)
            run n (.evalArgsTail r.1 e t r.2 r.2)
        | some _ => .crash
        | none => .crash
    | .evalArgsTail s e a last first =>
      if a = nilA then .ok s first
      else
        match getObj s a with
        | some (.cons h t) =>
          rbind (run n (.eval s e h)) fun s1 v =>
            let r := alloc s1 (.cons v nilA)
            match getObj r.1 last with
            | some (.cons lv _) =>
              run n (.evalArgsTail (setObj r.1 last (.cons lv r.2)) e t r.2 first)
            | _ => .crash
        | some _ => .crash
        | none => .crash
    -- progn, core.c:220; `last` starts uninitialised, so an empty sequence
    -- returns an indeterminate pointer: crash
    | .progn s e a last =>
      if a = nilA then
        match last with
        | some v => .ok s v
        | none => .crash
      else
        match getObj s a with
        | some (.cons h t) =>
          rbind (run n (.eval s e h)) fun s1 v => run n (.progn s1 e t (some v))
        | some _ => .crash
        | none => .crash
    -- primitive_and, core.c:302
    | .andLoop s e a =>
      if a = nilA then .ok s trueA
      else
        match getObj s a with
        | some (.cons h t) =>
          rbind (run n (.eval s e h)) fun s1 v =>
            if v = nilA then .ok s1 nilA else run n (.andLoop s1 e t)
        | some _ => .crash
        | none => .crash
    -- primitive_or, core.c:311
    | .orLoop s e a =>
      if a = nilA then .ok s nilA
      else
        match getObj s a with
        | some (.cons h t) =>
          rbind (run n (.eval s e h)) fun s1 v =>
            if v = nilA then run n (.orLoop s1 e t) else .ok s1 trueA
        | some _ => .crash
        | none => .crash
    -- the loop of primitive_while, core.c:501
    | .whileLoop s e c body =>
      rbind (run n (.eval s e c)) fun s1 v =>
        if v = nilA then .ok s1 nilA
        else rbind (run n (.evalArgs s1 e body)) fun s2 _ => run n (.whileLoop s2 e c body)
    | .prim p s e args =>
      match p with
      | .pAnd => run n (.andLoop s e args)
      | .pOr => run n (.orLoop s e args)
      -- primitive_car, core.c:320; with zero arguments `args` is the Nil
      -- singleton and `args->car` is a null pointer: crash
      | .pCar =>
        rbind (run n (.evalArgs s e args)) fun s1 va =>
          match getObj s1 va with
          | some (.cons v0 vr) =>
            match getObj s1 v0 with
            | some (.cons a0 _) =>
              if vr = nilA then .ok s1 a0
              else .err "car accepts single list argument only"
            | some _ => .err "car accepts single list argument only"
            | none => .crash
          | some _ => .crash
          | none => .crash
      -- primitive_cdr, core.c:328
      | .pCdr =>
        rbind (run n (.evalArgs s e args)) fun s1 va =>
          match getObj s1 va with
          | some (.cons v0 vr) =>
            match getObj s1 v0 with
            | some (.cons _ d0) =>
              if vr = nilA then .ok s1 d0
              else .err "cdr accepts single list argument only"
            | some _ => .err "cdr accepts single list argument only"
            | none => .crash
          | some _ => .crash
          | none => .crash
      -- primitive_cons, core.c:336: overwrite the cdr of the first fresh
      -- result cell with the second value
      | .pCons =>
        match count s args with
        | some 2 =>
          rbind (run n (.evalArgs s e args)) fun s1 va =>
            match getObj s1 va with
            | some (.cons v1 c2) =>
              match getObj s1 c2 with
              | some (.cons v2 _) => .ok (setObj s1 va (.cons v1 v2)) va
              | _ => .crash
            | _ => .crash
        | some _ => .err "cons accepts two arguments only"
        | none => .timeout
      -- primitive_define, core.c:345
      | .pDefine =>
        match count s args with
        | some 2 =>
          match getObj s args with
          | some (.cons a1 r1) =>
            match getObj s a1 with
            | some (.sym nm) =>
              match getObj s r1 with
              | some (.cons a2 _) =>
                rbind (run n (.eval s e a2)) fun s1 v => .ok (insertFrame s1 e nm v) v
              | _ => .crash
            | some _ => .err "define accepts two arguments only, with first one being a symbol"
            | none => .crash
          | _ => .crash
        | some _ => .err "define accepts two arguments only, with first one being a symbol"
        | none => .timeout
      -- primitive_defun, core.c:511: build the closure from args->cdr, then
      -- overwrite args->cdr with a fresh cell holding it, then define
      | .pDefun =>
        match getObj s args with
        | some (.cons a0 d0) =>
          rbind (primitive_lambda s d0) fun s1 fnA =>
            let r := alloc s1 (.cons fnA nilA)
            let s3 : St := { setObj r.1 args (.cons a0 r.2) with mutFlag := true }
            run n (.prim .pDefine s3 e args)
        | _ => .crash
      -- primitive_eq, core.c:354
      | .pEq =>
        match count s args with
        | some 2 =>
          rbind (run n (.evalArgs s e args)) fun s1 va =>
            match getObj s1 va with
            | some (.cons v1 c2) =>
              match getObj s1 c2 with
              | some (.cons v2 _) =>
                match getObj s1 v1 with
                | some (.int i) =>
                  match getObj s1 v2 with
                  | some (.int j) => .ok s1 (if i = j then trueA else nilA)
                  | some _ => .err "= accepts integers only"
                  | none => .crash
                | some _ => .err "= accepts integers only"
                | none => .crash
              | _ => .crash
            | _ => .crash
        | some _ => .err "= accepts two arguments only"
        | none => .timeout
      -- primitive_gt, core.c:365
      | .pGt =>
        match count s args with
        | some 2 =>
          rbind (run n (.evalArgs s e args)) fun s1 va =>
            match getObj s1 va with
            | some (.cons v1 c2) =>
              match getObj s1 c2 with
              | some (.cons v2 _) =>
                match getObj s1 v1 with
                | some (.int i) =>
                  match getObj s1 v2 with
                  | some (.int j) => .ok s1 (if j < i then trueA else nilA)
                  | some _ => .err "> accepts integers only"
                  | none => .crash
                | some _ => .err "> accepts integers only"
                | none => .crash
              | _ => .crash
            | _ => .crash
        | some _ => .err "> accepts two arguments only"
        | none => .timeout
      -- primitive_if, core.c:376
      | .pIf =>
        match count s args with
        | some cnt =>
          if cnt ≠ 2 ∧ cnt ≠ 3 then .err "if needs two or three arguments"
          else
            match getObj s args with
            | some (.cons a1 r1) =>
              rbind (run n (.eval s e a1)) fun s1 v =>
                if v ≠ nilA then
                  match getObj s1 r1 with
                  | some (.cons a2 _) => run n (.eval s1 e a2)
                  | _ => .crash
                else if cnt = 2 then .ok s1 nilA
                else
                  match getObj s1 r1 with
                  | some (.cons _ r2) =>
                    match getObj s1 r2 with
                    | some (.cons a3 _) => run n (.eval s1 e a3)
                    | _ => .crash
                  | _ => .crash
            | _ => .crash
        | none => .timeout
      -- primitive_lt, core.c:387
      | .pLt =>
        match count s args with
        | some 2 =>
          rbind (run n (.evalArgs s e args)) fun s1 va =>
            match getObj s1 va with
            | some (.cons v1 c2) =>
              match getObj s1 c2 with
              | some (.cons v2 _) =>
                match getObj s1 v1 with
                | some (.int i) =>
                  match getObj s1 v2 with
                  | some (.int j) => .ok s1 (if i < j then trueA else nilA)
                  | some _ => .err "< accepts integers only"
                  | none => .crash
                | some _ => .err "< accepts integers only"
                | none => .crash
              | _ => .crash
            | _ => .crash
        | some _ => .err "< accepts two arguments only"
        | none => .timeout
      | .pLambda => primitive_lambda s args
      -- primitive_minus, core.c:402: a single argument is negated, otherwise
      -- subtract left to right; `diff` is uninitialised when there are no
      -- arguments at all
      | .pMinus =>
        rbind (run n (.evalArgs s e args)) fun s1 va =>
          if va = nilA then .crash
          else
            match getObj s1 va with
            | some (.cons v0 t) =>
              match getObj s1 v0 with
              | some (.int i) =>
                if t = nilA then
                  let r := alloc s1 (.int (tc32 (-i)))
                  .ok r.1 r.2
                else
                  match subAux (s1.objs.length + 1) s1 t i with
                  | .okv d =>
                    let r := alloc s1 (.int d)
                    .ok r.1 r.2
                  | .errv m => .err m
                  | .crashv => .crash
                  | .toutv => .timeout
              | some _ => .err "+ accepts only integers"
              | none => .crash
            | some _ => .crash
            | none => .crash
      -- primitive_multi, core.c:425
      | .pMulti =>
        match count s args with
        | some cnt =>
          if cnt < 2 then .err "* accepts at least two arguments"
          else
            rbind (run n (.evalArgs s e args)) fun s1 va =>
              match getObj s1 va with
              | some (.cons v0 t) =>
                match getObj s1 v0 with
                | some (.int i) =>
                  match mulAux (s1.objs.length + 1) s1 t i with
                  | .okv d =>
                    let r := alloc s1 (.int d)
                    .ok r.1 r.2
                  | .errv m => .err m
                  | .crashv => .crash
                  | .toutv => .timeout
                | some _ => .err "* accepts only integers"
                | none => .crash
              | _ => .crash
        | none => .timeout
      -- primitive_obj_eq, core.c:447: pointer identity
      | .pObjEq =>
        match count s args with
        | some 2 =>
          rbind (run n (.evalArgs s e args)) fun s1 va =>
            match getObj s1 va with
            | some (.cons v1 c2) =>
              match getObj s1 c2 with
              | some (.cons v2 _) => .ok s1 (if v1 = v2 then trueA else nilA)
              | _ => .crash
            | _ => .crash
        | some _ => .err "eq accepts two arguments only"
        | none => .timeout
      -- primitive_plus, core.c:455
      | .pPlus =>
        rbind (run n (.evalArgs s e args)) fun s1 va =>
          match sumAux (s1.objs.length + 1) s1 va 0 with
          | .okv v =>
            let r := alloc s1 (.int v)
            .ok r.1 r.2
          | .errv m => .err m
          | .crashv => .crash
          | .toutv => .timeout
      -- primitive_println, core.c:468
      | .pPrintln =>
        match count s args with
        | some 1 =>
          match getObj s args with
          | some (.cons a1 _) =>
            rbind (run n (.eval s e a1)) fun s1 v =>
              match heapPrint s1 v with
              | some txt => .ok { s1 with out := s1.out ++ txt ++ "\n" } nilA
              | none => .timeout
          | _ => .crash
        | some _ => .err "println takes one argument only"
        | none => .timeout
      -- primitive_progn, core.c:477
      | .pProgn => run n (.progn s e args none)
      -- primitive_setcar, core.c:481: overwrite the car of an existing cell
      | .pSetcar =>
        rbind (run n (.evalArgs s e args)) fun s1 va =>
          match count s1 va with
          | some 2 =>
            match getObj s1 va with
            | some (.cons v1 c2) =>
              match getObj s1 v1 with
              | some (.cons _ od) =>
                match getObj s1 c2 with
                | some (.cons v2 _) =>
                  .ok { setObj s1 v1 (.cons v2 od) with mutFlag := true } v1
                | _ => .crash
              | some _ => .err "setcar accepts two arguments only, with first being a cons cell"
              | none => .crash
            | _ => .crash
          | some _ => .err "setcar accepts two arguments only, with first being a cons cell"
          | none => .timeout
      -- primitive_quote, core.c:490
      | .pQuote =>
        match count s args with
        | some 1 =>
          match getObj s args with
          | some (.cons a1 _) => .ok s a1
          | _ => .crash
        | some _ => .err "quote accepts one argument only"
        | none => .timeout
      -- primitive_while, core.c:497
      | .pWhile =>
        match count s args with
        | some cnt =>
          if cnt < 2 then .err "while needs at least two arguments"
          else
            match getObj s args with
            | some (.cons c rest) => run n (.whileLoop s e c rest)
            | _ => .crash
        | none => .timeout

/-- `eval` as a plain function of fuel, state, environment and expression. -/
def eval (n : Nat) (s : St) (e a : Nat) : Res Nat := run n (.eval s e a)

/-- `apply` as a plain function. -/
def apply (n : Nat) (s : St) (e f args : Nat) : Res Nat := run n (.apply s e f args)

/-- `eval_args` as a plain function. -/
def eval_args (n : Nat) (s : St) (e a : Nat) : Res Nat := run n (.evalArgs s e a)

/-- `progn` as a plain function. -/
def progn (n : Nat) (s : St) (e a : Nat) : Res Nat := run n (.progn s e a none)

/-- The heap produced by `env_init` (core.c:534): the two singletons followed
by one primitive object per built-in, in registration order. -/
def envInitObjs : List Obj :=
  [.nil, .tru,
   .prim .pAnd, .prim .pCar, .prim .pCdr, .prim .pCons, .prim .pDefine,
   .prim .pDefun, .prim .pEq, .prim .pGt, .prim .pIf, .prim .pLt,
   .prim .pLambda, .prim .pMinus, .prim .pMulti, .prim .pObjEq, .prim .pOr,
   .prim .pPlus, .prim .pPrintln, .prim .pProgn, .prim .pSetcar,
   .prim .pQuote, .prim .pWhile]

/-- The root frame bindings installed by `env_init`, mapping each name to the
address of its object in `envInitObjs`. -/
def envInitTbl : List (String × Nat) :=
  [("Nil", 0), ("True", 1), ("and", 2), ("car", 3), ("cdr", 4), ("cons", 5),
   ("define", 6), ("defun", 7), ("=", 8), (">", 9), ("if", 10), ("<", 11),
   ("lambda", 12), ("-", 13), ("*", 14), ("eq", 15), ("or", 16), ("+", 17),
   ("println", 18), ("progn", 19), ("setcar", 20), ("quote", 21),
   ("while", 22)]

/-- `env_init`: the machine state right after initialisation, before any
program objects are read.  The root environment is frame 0. -/
def env_init : St :=
  { objs := envInitObjs, envs := [⟨envInitTbl, none⟩], out := "", mutFlag := false }

/-- The returned address of a successful run. -/
def resValue : Res Nat → Option Nat
  | .ok _ v => some v
  | _ => none

/-- The final state of a successful run. -/
def resState : Res Nat → Option St
  | .ok s _ => some s
  | _ => none

/-- The address bound to `nm` in frame `e` itself (no parent search). -/
def frameBinding (s : St) (e : Nat) (nm : String) : Option Nat :=
  match s.envs.get? e with
  | some f => (f.tbl.find? (fun p => p.1 == nm)).map (fun p => p.2)
  | none => none

/-- The object bound to `nm` in frame `e` of the final state of a run. -/
def finalBinding (r : Res Nat) (e : Nat) (nm : String) : Option Obj :=
  match resState r with
  | some s => (frameBinding s e nm).bind (fun a => getObj s a)
  | none => none

/-!
## Reader and printer

The reader (core.c:60) and the printer (core.c:249) move between text and
acyclic symbolic values, so we model them on a pure tree type `SVal` rather
than on the heap: the reader only ever produces fresh acyclic structure, and
the claims about them (round-trip, numeric literals, pair notation) concern
the text, not object identity.
-/

/-- A pure S-expression value: exactly the `Object` variants, with pairs as a
tree (the reader never creates sharing or cycles). -/
inductive SVal
  | iv (i : Int)
  | sv (s : String)
  | nilv
  | truev
  | consv (a d : SVal)
  | primv
  | funcv
deriving DecidableEq

/-- `isspace` of the C locale. -/
def isSpaceC (c : Char) : Bool := c.toNat = 32 || (9 ≤ c.toNat && c.toNat ≤ 13)

/-- `isdigit`. -/
def isDigC (c : Char) : Bool := 48 ≤ c.toNat && c.toNat ≤ 57

/-- `isalpha` of the C locale. -/
def isAlphaC (c : Char) : Bool :=
  (65 ≤ c.toNat && c.toNat ≤ 90) || (97 ≤ c.toNat && c.toNat ≤ 122)

/-- `strchr(symbol_special_chars, c)`, the set `+-_<>=?*` (core.c:10). -/
def isSpecialC (c : Char) : Bool :=
  c.toNat = 43 || c.toNat = 45 || c.toNat = 95 || c.toNat = 60 || c.toNat = 62 ||
    c.toNat = 61 || c.toNat = 63 || c.toNat = 42

/-- A character that continues a symbol token: `isalnum` or special. -/
def symCharB (c : Char) : Bool := isDigC c || isAlphaC c || isSpecialC c

/-- `true` when the first character of `cs` is a digit. -/
def headDig : List Char → Bool
  | c :: _ => isDigC c
  | [] => false

/-- `SYMBOL_MAX_LENGTH` (core.c:8). -/
def SYMBOL_MAX_LENGTH : Nat := 128

/-- The digit-accumulation loop of `read_number` (core.c:103): consume
consecutive digits, accumulating `v = v * 10 + digit` in C `int` arithmetic
(modelled with the two's-complement wrap `tc32`). -/
def rnLoop (v : Int) : List Char → Int × List Char
  | c :: cs => if isDigC c then rnLoop (tc32 (v * 10 + ((c.toNat : Int) - 48))) cs else (v, c :: cs)
  | [] => (v, [])

/-- `read_symbol` (core.c:110): take the maximal run of symbol characters;
storing a 129th character is the fatal over-length error.  Returns `none`
for that error. -/
def readSymTok (cs : List Char) : Option (String × List Char) :=
  let tok := cs.takeWhile symCharB
  if SYMBOL_MAX_LENGTH < tok.length then none
  else some (String.mk tok, cs.dropWhile symCharB)

/-- `read_quoted_symbol` (core.c:126): raw characters up to the closing
quote.  With no closing quote the C loop keeps storing the EOF value until
the length check fires, so a missing quote is also the over-length error. -/
def readQuotedTok (cs : List Char) : Option (String × List Char) :=
  let tok := cs.takeWhile (fun c => c ≠ '"')
  match cs.dropWhile (fun c => c ≠ '"') with
  | _ :: rest => if SYMBOL_MAX_LENGTH < tok.length then none else some (String.mk tok, rest)
  | [] => none

/-- Result of one reader call: a value plus the remaining input, end of
stream (`read` returns NULL), the fatal read errors, or fuel exhaustion
(the C reader loops forever, e.g. on an unterminated list at EOF). -/
inductive RRes
  | okR (v : SVal) (rest : List Char)
  | eofR
  | errR (msg : String)
  | timeoutR
deriving DecidableEq

/-- Pending reader work: `rd` is `read` (core.c:60), `rdList` the list loop
(core.c:143) carrying the elements read so far. -/
inductive RTask
  | rd (cs : List Char)
  | rdList (cs : List Char) (acc : List SVal)

/-- Rebuild the proper list collected by `read_list` (ends in `Nil`). -/
def listToSV : List SVal → SVal
  | [] => .nilv
  | v :: vs => .consv v (listToSV vs)

/-- The reader.  Transcribed case by case from `read` (core.c:60):
whitespace is skipped, EOF ends the stream, a digit or `-`-digit starts an
integer literal, a letter or special character a symbol, `"` a quoted
symbol, `(` a list, `'` the quote sugar, anything else is a syntax error.
The digit branch calls `read_number()` without the declared `isPositive`
argument (core.c:71); the intended and observed behaviour is the positive
path, which is what the spec describes and what we model.

In `read_list`, end of input makes the C loop spin on EOF forever (`read`
returns NULL, which is consed onto the list, and the loop repeats), so that
path burns fuel and times out. -/
def runRead : Nat → RTask → RRes
  | 0, _ => .timeoutR
  | n + 1, .rd cs =>
    match cs with
    | [] => .eofR
    | c :: cs' =>
      if isSpaceC c then runRead n (.rd cs')
      else if isDigC c then
        let p := rnLoop 0 (c :: cs')
        .okR (.iv p.1) p.2
      else if c = '-' && headDig cs' then
        let p := rnLoop 0 cs'
        .okR (.iv (tc32 (-p.1))) p.2
      else if isAlphaC c || isSpecialC c then
        match readSymTok (c :: cs') with
        | some r => .okR (.sv r.1) r.2
        | none => .errR "Symbol name is too long"
      else if c = '"' then
        match readQuotedTok cs' with
        | some r => .okR (.sv r.1) r.2
        | none => .errR "Symbol name is too long"
      else if c = '(' then runRead n (.rdList cs' [])
      else if c = '\'' then
        match runRead n (.rd cs') with
        | .okR v rest => .okR (.consv (.sv "quote") (.consv v .nilv)) rest
        | .errR m => .errR m
        | .timeoutR => .timeoutR
        -- at EOF the C code builds (quote NULL); any later use of the null
        -- pointer crashes, and no claim reaches this path
        | .eofR => .timeoutR
      else .errR "Syntax error\n"
  | n + 1, .rdList cs acc =>
    match cs.dropWhile isSpaceC with
    | [] => runRead n (.rdList [] acc)
    | c :: cs' =>
      if c = ')' then .okR (listToSV acc) cs'
      else
        match runRead n (.rd (c :: cs')) with
        | .okR v rest => runRead n (.rdList rest (acc ++ [v]))
        | .errR m => .errR m
        | .timeoutR => .timeoutR
        | .eofR => .timeoutR

/-- `read` as a plain function. -/
def read (n : Nat) (cs : List Char) : RRes := runRead n (.rd cs)

/-- `print` (core.c:249) on pure values.  The first component is the text of
the value; the second is the text the list-walking loop of core.c:259 emits
when this value is the current `cdr` of a chain being printed (empty for
`Nil`, a space and the element texts otherwise).  When the terminal `cdr` of
a chain is neither a cons cell nor `Nil`, the loop reads `o->car` of a
non-cons node, which depends on the `Object` layout in the missing core.h;
modelled from the spec (section 4.5): the improper tail prints its `cdr` as
the final element with no separating marker beyond the space. -/
def printParts : SVal → List Char × List Char
  | .iv i => (intChars i, ' ' :: intChars i)
  | .sv s => (s.data, ' ' :: s.data)
  | .nilv => ("Nil".data, [])
  | .truev => ("True".data, ' ' :: "True".data)
  | .consv a d =>
    let pa := printParts a
    let pd := printParts d
    ('(' :: (pa.1 ++ pd.2) ++ [')'], ' ' :: (pa.1 ++ pd.2))
  | .primv => ("<primitive>".data, ' ' :: "<primitive>".data)
  | .funcv => ("<function>".data, ' ' :: "<function>".data)

/-- The characters `print` emits for a value. -/
def printChars (v : SVal) : List Char := (printParts v).1

/-- The text `print` emits for a value. -/
def printS (v : SVal) : String := String.mk (printChars v)

/-- The elements the printing loop walks: the successive `car`s of a cons
chain, with an improper terminal `cdr` as a final element of its own. -/
def elemsOf : SVal → List SVal
  | .nilv => []
  | .consv a d => a :: elemsOf d
  | t => [t]

/-- Join character lists with single spaces. -/
def joinSp : List (List Char) → List Char
  | [] => []
  | [x] => x
  | x :: xs => x ++ ' ' :: joinSp xs

theorem joinSp_cons (x : List Char) (xs : List (List Char)) (h : xs ≠ []) :
    joinSp (x :: xs) = x ++ ' ' :: joinSp xs := by
  cases xs with
  | nil => exact absurd rfl h
  | cons y ys => rfl

theorem elemsOf_eq_nil (d : SVal) : elemsOf d = [] ↔ d = .nilv := by
  cases d <;> simp [elemsOf]

theorem printParts_tail (d : SVal) (h : elemsOf d ≠ []) :
    (printParts d).2 = ' ' :: joinSp ((elemsOf d).map printChars) := by
  induction d with
  | consv a d iha ihd =>
    by_cases hd : elemsOf d = []
    · rw [elemsOf_eq_nil] at hd
      subst hd
      simp [printParts, elemsOf, joinSp, printChars]
    · simp only [printParts, elemsOf, List.map_cons]
      rw [ihd hd, joinSp_cons _ _ (by simpa using hd)]
      simp [printChars]
  | nilv => simp [elemsOf] at h
  | iv i => simp [printParts, elemsOf, joinSp, printChars]
  | sv s => simp [printParts, elemsOf, joinSp, printChars]
  | truev => simp [printParts, elemsOf, joinSp, printChars]
  | primv => simp [printParts, elemsOf, joinSp, printChars]
  | funcv => simp [printParts, elemsOf, joinSp, printChars]

theorem elemsOf_foldr (l : List SVal) (t : SVal) (ht1 : t ≠ .nilv)
    (ht2 : ∀ x y, t ≠ .consv x y) : elemsOf (List.foldr .consv t l) = l ++ [t] := by
  induction l with
  | nil =>
    cases t with
    | nilv => exact absurd rfl ht1
    | consv x y => exact absurd rfl (ht2 x y)
    | iv i => rfl
    | sv s => rfl
    | truev => rfl
    | primv => rfl
    | funcv => rfl
  | cons x l ih => simp [elemsOf, ih]

/-- C8: for every pair, `print` emits `(`, the space-separated recursive
prints of the successive `car` elements, and `)`; an improper chain prints
its terminal `cdr` as the final element, with no further marker, and still
produces a result. -/
theorem C8_print_pairs :
    (∀ a d : SVal, printChars (.consv a d) =
      '(' :: joinSp ((elemsOf (.consv a d)).map printChars) ++ [')']) ∧
    (∀ (l : List SVal) (t : SVal), l ≠ [] → t ≠ .nilv → (∀ x y, t ≠ .consv x y) →
      printChars (List.foldr .consv t l) =
      '(' :: joinSp (((l ++ [t]).map printChars)) ++ [')']) := by
  have main : ∀ a d : SVal, printChars (.consv a d) =
      '(' :: joinSp ((elemsOf (.consv a d)).map printChars) ++ [')'] := by
    intro a d
    by_cases hd : elemsOf d = []
    · rw [elemsOf_eq_nil] at hd
      subst hd
      simp [printChars, printParts, elemsOf, joinSp]
    · simp only [printChars, printParts, elemsOf, List.map_cons]
      rw [printParts_tail d hd, joinSp_cons _ _ (by simpa using hd)]
  refine ⟨main, ?_⟩
  intro l t hl ht1 ht2
  cases l with
  | nil => exact absurd rfl hl
  | cons x l' =>
    have he : elemsOf (SVal.consv x (List.foldr SVal.consv t l')) = (x :: l') ++ [t] := by
      rw [elemsOf, elemsOf_foldr l' t ht1 ht2]
      simp
    rw [List.foldr_cons, main x (List.foldr SVal.consv t l'), he]

/-- Witness for C8: `(1 . 2)` prints as `(1 2)`. -/
theorem C8_print_pairs_witness :
    printChars (List.foldr .consv (.iv 2) [.iv 1]) =
      '(' :: joinSp ((([SVal.iv 1] ++ [SVal.iv 2]).map printChars)) ++ [')'] :=
  C8_print_pairs.2 [.iv 1] (.iv 2) (by decide)
    (by decide) (fun x y => by simp)

/-- C10: `(and)` evaluates to `True` and `(or)` evaluates to `Nil`, in any
environment, without evaluating anything and without touching the state. -/
theorem C10_and_or_empty :
    (∀ (f : Nat) (s : St) (e xA c0 : Nat) (nm : String) (pA : Nat),
      getObj s nilA = some .nil →
      getObj s xA = some (.cons c0 nilA) →
      getObj s c0 = some (.sym nm) →
      env_lookup s e nm = some (some pA) →
      getObj s pA = some (.prim .pAnd) →
      eval (f + 4) s e xA = .ok s trueA) ∧
    (∀ (f : Nat) (s : St) (e xA c0 : Nat) (nm : String) (pA : Nat),
      getObj s nilA = some .nil →
      getObj s xA = some (.cons c0 nilA) →
      getObj s c0 = some (.sym nm) →
      env_lookup s e nm = some (some pA) →
      getObj s pA = some (.prim .pOr) →
      eval (f + 4) s e xA = .ok s nilA) := by
  constructor
  · intro f s e xA c0 nm pA h0 h1 h2 h3 h4
    simp [eval, run, h0, h1, h2, h3, h4, rbind]
  · intro f s e xA c0 nm pA h0 h1 h2 h3 h4
    simp [eval, run, h0, h1, h2, h3, h4, rbind]

/-- State for the C10 witness: `env_init` plus the expressions `(and)` at
address 24 and `(or)` at address 26. -/
def c10st : St :=
  { objs := envInitObjs ++ [.sym "and", .cons 23 0, .sym "or", .cons 25 0],
    envs := [⟨envInitTbl, none⟩], out := "", mutFlag := false }

/-- Witness for C10: in the initial environment, `(and)` gives `True` and
`(or)` gives `Nil`. -/
theorem C10_and_or_empty_witness :
    eval 4 c10st 0 24 = .ok c10st trueA ∧ eval 4 c10st 0 26 = .ok c10st nilA :=
  ⟨C10_and_or_empty.1 0 c10st 0 24 23 "and" 2 (by decide) (by decide) (by decide)
      (by decide) (by decide),
   C10_and_or_empty.2 0 c10st 0 26 25 "or" 16 (by decide) (by decide) (by decide)
      (by decide) (by decide)⟩

/-- State for C7: `env_init` plus the symbol `x` at 23, the parameter list
`(x)` at 24, and the argument list `((x))` of `(lambda (x))` at 25 -- a
lambda form with parameters but an empty body. -/
def c7st : St :=
  { objs := envInitObjs ++ [.sym "x", .cons 23 0, .cons 24 0],
    envs := [⟨envInitTbl, none⟩], out := "", mutFlag := false }

/-- Counterexample to C7: `primitive_lambda` applied to `((x))` -- an empty
body -- succeeds and builds a closure whose body is `Nil`, instead of being
rejected with an error at construction time. -/
theorem C7_counterexample :
    resValue (primitive_lambda c7st 25) = some 26 ∧
    (resState (primitive_lambda c7st 25)).bind (fun s => getObj s 26) =
      some (.func 24 nilA) := by
  constructor
  · decide
  · decide

/-- C7 (amended): `create_function` checks only that every parameter is a
symbol.  A closure with an empty body is constructed without any error; a
non-symbol parameter is the only construction-time rejection; and running
the body sequence of an empty-body closure is undefined behaviour (`progn`
returns an uninitialised variable, modelled as `crash`). -/
theorem C7_lambda_empty_body :
    (∀ (s : St) (args pa : Nat),
      getObj s args = some (.cons pa nilA) →
      checkParamsAux (s.objs.length + 1) s pa = some true →
      primitive_lambda s args =
        .ok { s with objs := s.objs ++ [.func pa nilA] } s.objs.length) ∧
    (∀ (f : Nat) (s : St) (e : Nat), run (f + 1) (.progn s e nilA none) = .crash) ∧
    (∀ (s : St) (args pa bd : Nat),
      getObj s args = some (.cons pa bd) →
      checkParamsAux (s.objs.length + 1) s pa = some false →
      primitive_lambda s args = .err "function parameter must be a symbol") := by
  refine ⟨?_, ?_, ?_⟩
  · intro s args pa h1 h2
    simp [primitive_lambda, h1, create_function, h2, alloc]
  · intro f s e
    simp [run, nilA]
  · intro s args pa bd h1 h2
    simp [primitive_lambda, h1, create_function, h2]

/-- Witness for C7's amended theorem: the concrete `(lambda (x))` instance. -/
theorem C7_lambda_empty_body_witness :
    primitive_lambda c7st 25 =
      .ok { c7st with objs := c7st.objs ++ [.func 24 nilA] } c7st.objs.length :=
  C7_lambda_empty_body.1 c7st 25 24 (by decide) (by decide)

/-- State for the C6 counterexample: `env_init` plus the symbol `car` at 23
and the expression `(car)` at 24. -/
def c6st : St :=
  { objs := envInitObjs ++ [.sym "car", .cons 23 0],
    envs := [⟨envInitTbl, none⟩], out := "", mutFlag := false }

/-- Counterexample to C6: evaluating `(car)` with zero arguments does not
signal a type error; `args->car` is the null pointer read from the `Nil`
singleton's zero-initialised field and dereferencing it crashes. -/
theorem C6_counterexample : eval 10 c6st 0 24 = .crash := by decide

/-- C6 (amended): with at least one argument, `car`/`cdr` evaluate their
arguments and return the car/cdr field of the single evaluated argument when
it is a pair; a single non-pair argument, or more than one argument, is the
fatal `err()` type error; with zero arguments the behaviour is a null-pointer
dereference, not an error (see the counterexample). -/
theorem C6_car_cdr_errors :
    (∀ (f : Nat) (s s1 : St) (e args va v0 a0 d0 : Nat),
      run f (.evalArgs s e args) = .ok s1 va →
      getObj s1 va = some (.cons v0 nilA) →
      getObj s1 v0 = some (.cons a0 d0) →
      run (f + 1) (.prim .pCar s e args) = .ok s1 a0 ∧
      run (f + 1) (.prim .pCdr s e args) = .ok s1 d0) ∧
    (∀ (f : Nat) (s s1 : St) (e args va v0 vr : Nat) (o : Obj),
      run f (.evalArgs s e args) = .ok s1 va →
      getObj s1 va = some (.cons v0 vr) →
      getObj s1 v0 = some o →
      (∀ x y, o ≠ .cons x y) →
      run (f + 1) (.prim .pCar s e args) = .err "car accepts single list argument only" ∧
      run (f + 1) (.prim .pCdr s e args) = .err "cdr accepts single list argument only") ∧
    (∀ (f : Nat) (s s1 : St) (e args va v0 vr a0 d0 : Nat),
      run f (.evalArgs s e args) = .ok s1 va →
      getObj s1 va = some (.cons v0 vr) →
      vr ≠ nilA →
      getObj s1 v0 = some (.cons a0 d0) →
      run (f + 1) (.prim .pCar s e args) = .err "car accepts single list argument only" ∧
      run (f + 1) (.prim .pCdr s e args) = .err "cdr accepts single list argument only") := by
  refine ⟨?_, ?_, ?_⟩
  · intro f s s1 e args va v0 a0 d0 h1 h2 h3
    constructor <;> simp [run, rbind, h1, h2, h3]
  · intro f s s1 e args va v0 vr o h1 h2 h3 ho
    cases o with
    | cons x y => exact absurd rfl (ho x y)
    | int i => constructor <;> simp [run, rbind, h1, h2, h3]
    | sym nm => constructor <;> simp [run, rbind, h1, h2, h3]
    | nil => constructor <;> simp [run, rbind, h1, h2, h3]
    | tru => constructor <;> simp [run, rbind, h1, h2, h3]
    | prim p => constructor <;> simp [run, rbind, h1, h2, h3]
    | func p b => constructor <;> simp [run, rbind, h1, h2, h3]
  · intro f s s1 e args va v0 vr a0 d0 h1 h2 h3 h4
    constructor <;> simp [run, rbind, h1, h2, h3, h4]

/-- State for the C6 witness: `env_init` plus `car` at 23, `5` at 24, the
argument list `(5)` at 25 and the expression `(car 5)` at 26. -/
def c6wst : St :=
  { objs := envInitObjs ++ [.sym "car", .int 5, .cons 24 0, .cons 23 25],
    envs := [⟨envInitTbl, none⟩], out := "", mutFlag := false }

/-- The state after `eval_args` has evaluated the argument list `(5)` of
`(car 5)`: one fresh result cell holding the integer. -/
def c6wst1 : St := { c6wst with objs := c6wst.objs ++ [.cons 24 0] }

/-- Witness for C6's amended theorem: `(car 5)` is the type error. -/
theorem C6_car_cdr_errors_witness :
    run 11 (.prim .pCar c6wst 0 25) = .err "car accepts single list argument only" ∧
    run 11 (.prim .pCdr c6wst 0 25) = .err "cdr accepts single list argument only" :=
  C6_car_cdr_errors.2.1 10 c6wst c6wst1 0 25 27 24 0 (.int 5)
    (by decide) (by decide) (by decide) (fun x y => by simp)

/-!
## Numeric literals (C5) and round-trip (C2) support
-/

/-- `true` when reading a number would stop here: end of input or a
non-digit first character. -/
def stopsNum : List Char → Bool
  | [] => true
  | c :: _ => !(isDigC c)

/-- `true` when reading a symbol would stop here: end of input or a first
character that is neither alphanumeric nor special. -/
def stopsSym : List Char → Bool
  | [] => true
  | c :: _ => !(symCharB c)

/-- The base-10 value of a digit run, most significant digit first: the
number "formed by the consecutive digits". -/
def digitsValFrom (v : Nat) (l : List Char) : Nat :=
  l.foldl (fun a c => 10 * a + (c.toNat - 48)) v

/-- The base-10 value of a digit run starting from zero. -/
def digitsVal (l : List Char) : Nat := digitsValFrom 0 l

/-- The accumulator step of `rnLoop`, as a function. -/
def wstep (a : Int) (c : Char) : Int := tc32 (a * 10 + ((c.toNat : Int) - 48))

/-- The exact (unwrapped) accumulator, over `Int`. -/
def istep (a : Int) (c : Char) : Int := a * 10 + ((c.toNat : Int) - 48)

theorem tc32_eq (x : Int) (h1 : -(2 ^ 31) ≤ x) (h2 : x < 2 ^ 31) : tc32 x = x := by
  unfold tc32
  omega

theorem rnLoop_stop (v : Int) (rest : List Char) (h : stopsNum rest = true) :
    rnLoop v rest = (v, rest) := by
  cases rest with
  | nil => rfl
  | cons c cs =>
    simp only [stopsNum, Bool.not_eq_true'] at h
    simp [rnLoop, h]

theorem rnLoop_digits : ∀ (ds rest : List Char) (v : Int),
    (∀ c ∈ ds, isDigC c = true) → stopsNum rest = true →
    rnLoop v (ds ++ rest) = (ds.foldl wstep v, rest) := by
  intro ds
  induction ds with
  | nil => intro rest v _ hr; simpa using rnLoop_stop v rest hr
  | cons c cs ih =>
    intro rest v hd hr
    have hc : isDigC c = true := hd c (List.mem_cons_self c cs)
    simp only [List.cons_append, rnLoop, hc, if_true, List.append_eq]
    rw [ih rest _ (fun x hx => hd x (List.mem_cons_of_mem c hx)) hr]
    rfl

theorem isDigC_toNat {c : Char} (h : isDigC c = true) :
    48 ≤ c.toNat ∧ c.toNat ≤ 57 := by
  simp only [isDigC, Bool.and_eq_true, decide_eq_true_eq] at h
  exact h

theorem foldl_istep_ge : ∀ (ds : List Char) (v : Int),
    (∀ c ∈ ds, isDigC c = true) → 0 ≤ v →
    v ≤ ds.foldl istep v ∧ 0 ≤ ds.foldl istep v := by
  intro ds
  induction ds with
  | nil => intro v _ hv; exact ⟨le_refl v, hv⟩
  | cons c cs ih =>
    intro v hd hv
    have hc := isDigC_toNat (hd c (List.mem_cons_self c cs))
    have h48 : (48 : Int) ≤ (c.toNat : Int) := by exact_mod_cast hc.1
    have hstep : v ≤ istep v c := by
      unfold istep
      omega
    have hstep0 : 0 ≤ istep v c := le_trans hv hstep
    have h2 := ih (istep v c) (fun x hx => hd x (List.mem_cons_of_mem c hx)) hstep0
    exact ⟨le_trans hstep h2.1, h2.2⟩

theorem foldl_wstep_eq_istep : ∀ (ds : List Char) (v : Int),
    (∀ c ∈ ds, isDigC c = true) → 0 ≤ v → ds.foldl istep v < 2 ^ 31 →
    ds.foldl wstep v = ds.foldl istep v := by
  intro ds
  induction ds with
  | nil => intro v _ _ _; rfl
  | cons c cs ih =>
    intro v hd hv hlt
    have hdc : ∀ x ∈ cs, isDigC x = true := fun x hx => hd x (List.mem_cons_of_mem c hx)
    have hc := isDigC_toNat (hd c (List.mem_cons_self c cs))
    have h48 : (48 : Int) ≤ (c.toNat : Int) := by exact_mod_cast hc.1
    have hstep0 : 0 ≤ istep v c := by
      unfold istep
      omega
    simp only [List.foldl_cons] at hlt ⊢
    have hmono := foldl_istep_ge cs (istep v c) hdc hstep0
    have hlt2 : istep v c < 2 ^ 31 := lt_of_le_of_lt hmono.1 hlt
    have hw : wstep v c = istep v c := by
      show tc32 (istep v c) = istep v c
      exact tc32_eq _ (by omega) hlt2
    rw [hw, ih (istep v c) hdc hstep0 hlt]

theorem foldl_istep_natCast : ∀ (ds : List Char) (v : Nat),
    (∀ c ∈ ds, isDigC c = true) →
    ds.foldl istep (v : Int) = (digitsValFrom v ds : Int) := by
  intro ds
  induction ds with
  | nil => intro v _; rfl
  | cons c cs ih =>
    intro v hd
    have hc := isDigC_toNat (hd c (List.mem_cons_self c cs))
    simp only [List.foldl_cons, digitsValFrom]
    have hstep : istep (v : Int) c = ((10 * v + (c.toNat - 48) : Nat) : Int) := by
      unfold istep
      push_cast [hc.1]
      ring
    rw [hstep]
    exact ih (10 * v + (c.toNat - 48)) (fun x hx => hd x (List.mem_cons_of_mem c hx))

/-- The combined fact used by the reader theorems: on a digit run within
`int` range followed by a non-digit, the accumulation loop of `read_number`
computes exactly the base-10 value of the run. -/
theorem rnLoop_val (ds rest : List Char)
    (hd : ∀ c ∈ ds, isDigC c = true) (hr : stopsNum rest = true)
    (hsize : digitsVal ds < 2 ^ 31) :
    rnLoop 0 (ds ++ rest) = ((digitsVal ds : Int), rest) := by
  rw [rnLoop_digits ds rest 0 hd hr]
  have h0 := foldl_istep_natCast ds 0 hd
  simp only [Nat.cast_zero] at h0
  have hlt : ds.foldl istep (0 : Int) < 2 ^ 31 := by
    rw [h0]
    exact_mod_cast hsize
  rw [foldl_wstep_eq_istep ds 0 hd (le_refl 0) hlt, h0]
  rfl

/-- Shared reading lemma: a digit run within `int` range reads as its
base-10 value, and `-` followed by such a run as the negation. -/
theorem read_number_ok :
    ∀ (ds rest : List Char) (f : Nat), ds ≠ [] →
      (∀ c ∈ ds, isDigC c = true) →
      stopsNum rest = true →
      digitsVal ds < 2 ^ 31 →
      read (f + 1) (ds ++ rest) = .okR (.iv (digitsVal ds)) rest ∧
      read (f + 1) ('-' :: (ds ++ rest)) = .okR (.iv (-(digitsVal ds : Int))) rest := by
  intro ds rest f hne hd hr hsize
  cases ds with
  | nil => exact absurd rfl hne
  | cons c cs =>
    have hc : isDigC c = true := hd c (List.mem_cons_self c cs)
    have hcn := isDigC_toNat hc
    have hsp : isSpaceC c = false := by
      simp only [isSpaceC, Bool.or_eq_false_iff, decide_eq_false_iff_not,
        Bool.and_eq_false_iff]
      omega
    have hrn : rnLoop 0 (c :: (cs ++ rest)) = ((digitsVal (c :: cs) : Int), rest) := by
      have h := rnLoop_val (c :: cs) rest hd hr hsize
      simpa using h
    constructor
    · simp only [List.cons_append, read, runRead, hsp, Bool.false_eq_true, if_false, hc,
        if_true, hrn]
    · have hneg : tc32 (-((digitsVal (c :: cs) : Nat) : Int)) = -(digitsVal (c :: cs) : Int) := by
        apply tc32_eq <;> omega
      have hs1 : isSpaceC '-' = false := by decide
      have hd1 : isDigC '-' = false := by decide
      simp only [List.cons_append, read, runRead, hs1, Bool.false_eq_true, if_false, hd1,
        hc, Bool.and_self, if_true, hrn, hneg, reduceIte]
      simp [headDig, hc]

/-- C5: a token starting with a digit reads as the integer whose value is
the base-10 number formed by the consecutive digits consumed, and a token
starting with `-` followed by a digit reads as the negation of that
magnitude (stated for magnitudes below 2^31, where a C `int` accumulates
them without overflow).  The digit branch of `read` (core.c:71) calls
`read_number()` without its `isPositive` argument; the intended and observed
positive path, which the spec describes, is what the model takes. -/
theorem C5_read_number :
    ∀ (ds rest : List Char) (f : Nat), ds ≠ [] →
      (∀ c ∈ ds, isDigC c = true) →
      stopsNum rest = true →
      digitsVal ds < 2 ^ 31 →
      read (f + 1) (ds ++ rest) = .okR (.iv (digitsVal ds)) rest ∧
      read (f + 1) ('-' :: (ds ++ rest)) = .okR (.iv (-(digitsVal ds : Int))) rest :=
  read_number_ok

/-- Witness for C5: `42` reads as `Integer 42` and `-42` as `Integer -42`. -/
theorem C5_read_number_witness :
    read 1 "42".data = .okR (.iv (digitsVal "42".data)) [] ∧
    read 1 ('-' :: "42".data) = .okR (.iv (-(digitsVal "42".data : Int))) [] := by
  have h := C5_read_number "42".data [] 0 (by decide) (by decide) (by decide) (by decide)
  simpa using h

/-!
## Round-trip (C2)

`goodV` carves out the values for which printing and re-reading reproduces
the text: integers strictly between -2^31 and 2^31 (reading the text of
INT_MIN overflows the C accumulator), symbols whose names are readable
tokens, the atoms, and pairs of such values.  `canonParts` is the value the
reader actually reconstructs from the printed text (`Nil`/`True` come back
as symbols, improper chains as proper lists); its print is the same text.
-/

/-- A symbol name (as characters) that reads back as the same single token:
nonempty, starts with a letter or special character, is not a `-` followed
by a digit (that would read as a negative integer literal), consists of
symbol characters only, and fits in the reader's buffer. -/
def goodSymL (l : List Char) : Bool :=
  match l with
  | [] => false
  | c :: cs =>
    (isAlphaC c || isSpecialC c) && !(c = '-' && headDig cs) &&
      l.all symCharB && l.length ≤ SYMBOL_MAX_LENGTH

/-- The printable-and-re-readable values of claim C2. -/
def goodV : SVal → Bool
  | .iv i => decide (-(2 ^ 31) < i) && decide (i < 2 ^ 31)
  | .sv s => goodSymL s.data
  | .nilv => true
  | .truev => true
  | .consv a d => goodV a && goodV d
  | .primv => false
  | .funcv => false

/-- The value the reader rebuilds from a printed value.  First component:
reading the printed text of the value itself.  Second component: the proper
list the list loop rebuilds from this value's occurrence as the `cdr` of a
chain being printed (elements become re-read values, the chain always ends
at `Nil`). -/
def canonParts : SVal → SVal × SVal
  | .iv i => (.iv i, .consv (.iv i) .nilv)
  | .sv s => (.sv s, .consv (.sv s) .nilv)
  | .nilv => (.sv "Nil", .nilv)
  | .truev => (.sv "True", .consv (.sv "True") .nilv)
  | .consv a d =>
    (.consv (canonParts a).1 (canonParts d).2, .consv (canonParts a).1 (canonParts d).2)
  | .primv => (.sv "<primitive>", .consv (.sv "<primitive>") .nilv)
  | .funcv => (.sv "<function>", .consv (.sv "<function>") .nilv)

/-- The value `read` returns on the printed text of `v`. -/
def canonV (v : SVal) : SVal := (canonParts v).1

/-- Re-reading the printed text gives back the same text: on the printable
values, printing the canonical re-read value reproduces the characters. -/
theorem print_canonParts : ∀ v : SVal, goodV v = true →
    printChars (canonParts v).1 = printChars v ∧
    (printParts (canonParts v).2).2 = (printParts v).2 := by
  intro v
  induction v with
  | iv i => intro _; exact ⟨rfl, by simp [canonParts, printParts]⟩
  | sv s => intro _; exact ⟨rfl, by simp [canonParts, printParts]⟩
  | nilv => intro _; exact ⟨rfl, rfl⟩
  | truev => intro _; exact ⟨rfl, by simp [canonParts, printParts]⟩
  | primv => intro h; simp [goodV] at h
  | funcv => intro h; simp [goodV] at h
  | consv a d iha ihd =>
    intro h
    simp only [goodV, Bool.and_eq_true] at h
    have ha := iha h.1
    have hd := ihd h.2
    constructor
    · simp only [canonParts, printChars, printParts]
      rw [show printChars (canonParts a).1 = (printParts (canonParts a).1).1 from rfl] at ha
      rw [show printChars a = (printParts a).1 from rfl] at ha
      rw [ha.1, hd.2]
    · simp only [canonParts, printParts]
      rw [show printChars (canonParts a).1 = (printParts (canonParts a).1).1 from rfl] at ha
      rw [show printChars a = (printParts a).1 from rfl] at ha
      rw [ha.1, hd.2]

theorem String.mk_data (s : String) : String.mk s.data = s := rfl

theorem isDigC_symCharB {c : Char} (h : isDigC c = true) : symCharB c = true := by
  simp [symCharB, h]

theorem stopsSym_stopsNum {r : List Char} (h : stopsSym r = true) : stopsNum r = true := by
  cases r with
  | nil => rfl
  | cons c cs =>
    simp only [stopsSym, Bool.not_eq_true'] at h
    simp only [stopsNum, Bool.not_eq_true']
    cases hd : isDigC c with
    | false => rfl
    | true => rw [isDigC_symCharB hd] at h; exact Bool.noConfusion h

theorem isSpecialC_toNat {c : Char} (h : isSpecialC c = true) :
    c.toNat = 43 ∨ c.toNat = 45 ∨ c.toNat = 95 ∨ c.toNat = 60 ∨ c.toNat = 62 ∨
      c.toNat = 61 ∨ c.toNat = 63 ∨ c.toNat = 42 := by
  simp only [isSpecialC, Bool.or_eq_true, decide_eq_true_eq] at h
  tauto

theorem isAlphaC_toNat {c : Char} (h : isAlphaC c = true) :
    (65 ≤ c.toNat ∧ c.toNat ≤ 90) ∨ (97 ≤ c.toNat ∧ c.toNat ≤ 122) := by
  simp only [isAlphaC, Bool.or_eq_true, Bool.and_eq_true, decide_eq_true_eq] at h
  exact h

/-- A character opening a symbol token is not a space, not a digit, and not
a right parenthesis. -/
theorem symHead_facts {c : Char} (h : isAlphaC c = true ∨ isSpecialC c = true) :
    isSpaceC c = false ∧ isDigC c = false ∧ c ≠ ')' := by
  have hv : c.toNat = 43 ∨ c.toNat = 45 ∨ c.toNat = 95 ∨ c.toNat = 60 ∨ c.toNat = 62 ∨
      c.toNat = 61 ∨ c.toNat = 63 ∨ c.toNat = 42 ∨
      (65 ≤ c.toNat ∧ c.toNat ≤ 90) ∨ (97 ≤ c.toNat ∧ c.toNat ≤ 122) := by
    cases h with
    | inl h => rcases isAlphaC_toNat h with h2 | h2
               · exact Or.inr (Or.inr (Or.inr (Or.inr (Or.inr (Or.inr (Or.inr (Or.inr (Or.inl h2))))))))
               · exact Or.inr (Or.inr (Or.inr (Or.inr (Or.inr (Or.inr (Or.inr (Or.inr (Or.inr h2))))))))
    | inr h => rcases isSpecialC_toNat h with h2 | h2 | h2 | h2 | h2 | h2 | h2 | h2 <;> tauto
  refine ⟨?_, ?_, ?_⟩
  · simp only [isSpaceC, Bool.or_eq_false_iff, decide_eq_false_iff_not, Bool.and_eq_false_iff]
    omega
  · simp only [isDigC, Bool.and_eq_false_iff, decide_eq_false_iff_not]
    omega
  · intro hc
    subst hc
    exact absurd hv (by decide)

theorem digC_facts {c : Char} (h : isDigC c = true) :
    isSpaceC c = false ∧ c ≠ ')' := by
  have hv := isDigC_toNat h
  constructor
  · simp only [isSpaceC, Bool.or_eq_false_iff, decide_eq_false_iff_not, Bool.and_eq_false_iff]
    omega
  · intro hc
    subst hc
    exact absurd hv (by decide)

theorem tw_append {α : Type} (p : α → Bool) : ∀ l r : List α,
    (∀ c ∈ l, p c = true) → (∀ c, r.head? = some c → p c = false) →
    (l ++ r).takeWhile p = l ∧ (l ++ r).dropWhile p = r := by
  intro l
  induction l with
  | nil =>
    intro r _ hr
    cases r with
    | nil => exact ⟨rfl, rfl⟩
    | cons c cs =>
      have := hr c rfl
      simp [List.takeWhile, List.dropWhile, this]
  | cons c cs ih =>
    intro r hl hr
    have hc : p c = true := hl c (List.mem_cons_self c cs)
    have := ih r (fun x hx => hl x (List.mem_cons_of_mem c hx)) hr
    simp [List.takeWhile, List.dropWhile, hc, this.1, this.2]

/-- Reading a well-formed symbol token: `read` consumes exactly the token
and returns the symbol. -/
theorem read_symbol_ok (l rest : List Char) (f : Nat)
    (hg : goodSymL l = true) (hr : stopsSym rest = true) :
    read (f + 1) (l ++ rest) = .okR (.sv (String.mk l)) rest := by
  cases l with
  | nil => simp [goodSymL] at hg
  | cons c tl =>
    simp only [goodSymL, Bool.and_eq_true, Bool.not_eq_true'] at hg
    obtain ⟨⟨⟨hca, hnd⟩, hall⟩, hlen⟩ := hg
    have hfacts := symHead_facts (by simpa using hca)
    have hstop : ∀ x, rest.head? = some x → symCharB x = false := by
      intro x hx
      cases rest with
      | nil => simp at hx
      | cons y ys =>
        simp only [List.head?_cons, Option.some.injEq] at hx
        subst hx
        simpa [stopsSym] using hr
    have htw := tw_append symCharB (c :: tl) rest (by simpa [List.all_eq_true] using hall) hstop
    have hdashcheck : (decide (c = '-') && headDig (tl ++ rest)) = false := by
      by_cases hc : c = '-'
      · subst hc
        simp only [decide_True, Bool.true_and]
        cases tl with
        | cons d ds => simpa [headDig] using hnd
        | nil =>
          cases rest with
          | nil => rfl
          | cons y ys =>
            simp only [List.nil_append, headDig]
            cases hdy : isDigC y with
            | false => rfl
            | true =>
              have := hstop y rfl
              rw [isDigC_symCharB hdy] at this
              exact this
      · simp [hc]
    have hsym : readSymTok (c :: (tl ++ rest)) = some (String.mk (c :: tl), rest) := by
      have h1 : (c :: (tl ++ rest)) = (c :: tl) ++ rest := rfl
      have hlen2 : (c :: tl).length ≤ 128 := by
        simpa [SYMBOL_MAX_LENGTH] using hlen
      simp only [readSymTok, h1, htw.1, htw.2, SYMBOL_MAX_LENGTH]
      rw [if_neg (by omega)]
    simp only [List.cons_append, read, runRead, hfacts.1, Bool.false_eq_true, if_false,
      hfacts.2.1, hdashcheck, hca, if_true, hsym]

theorem digCh_toNat : ∀ n, n < 10 → (digCh n).toNat = 48 + n := by
  intro n h
  interval_cases n <;> rfl

theorem digCh_isDig : ∀ n, n < 10 → isDigC (digCh n) = true := by
  intro n h
  interval_cases n <;> rfl

theorem natCharsAux_spec : ∀ (f n : Nat), n < f →
    (natCharsAux f n ≠ [] ∧ (∀ c ∈ natCharsAux f n, isDigC c = true)) := by
  intro f
  induction f with
  | zero => intro n h; omega
  | succ f ih =>
    intro n h
    by_cases h10 : n < 10
    · simp only [natCharsAux, h10, if_true]
      exact ⟨by simp, by simpa using digCh_isDig n h10⟩
    · have hlt : n / 10 < f := by omega
      have := ih (n / 10) hlt
      simp only [natCharsAux, h10, if_false]
      refine ⟨by simp [this.1], ?_⟩
      intro c hc
      rcases List.mem_append.1 hc with hm | hm
      · exact this.2 c hm
      · simp only [List.mem_singleton] at hm
        subst hm
        exact digCh_isDig (n % 10) (by omega)

theorem natCharsAux_val : ∀ (f n v : Nat), n < f →
    digitsValFrom v (natCharsAux f n) = v * 10 ^ (natCharsAux f n).length + n := by
  intro f
  induction f with
  | zero => intro n v h; omega
  | succ f ih =>
    intro n v h
    by_cases h10 : n < 10
    · simp only [natCharsAux, h10, if_true, digitsValFrom, List.foldl_cons, List.foldl_nil,
        List.length_singleton]
      rw [digCh_toNat n h10]
      omega
    · have hlt : n / 10 < f := by omega
      simp only [natCharsAux, h10, if_false]
      have hfold : digitsValFrom v (natCharsAux f (n / 10) ++ [digCh (n % 10)]) =
          digitsValFrom (digitsValFrom v (natCharsAux f (n / 10))) [digCh (n % 10)] := by
        simp [digitsValFrom, List.foldl_append]
      rw [hfold, ih (n / 10) v hlt]
      simp only [digitsValFrom, List.foldl_cons, List.foldl_nil, List.length_append,
        List.length_singleton]
      rw [digCh_toNat (n % 10) (by omega)]
      rw [pow_succ]
      have : n = 10 * (n / 10) + n % 10 := (Nat.div_add_mod n 10).symm ▸ rfl
      ring_nf
      omega

theorem natChars_spec (n : Nat) :
    natChars n ≠ [] ∧ (∀ c ∈ natChars n, isDigC c = true) :=
  natCharsAux_spec (n + 1) n (by omega)

theorem natChars_val (n : Nat) : digitsVal (natChars n) = n := by
  have := natCharsAux_val (n + 1) n 0 (by omega)
  simpa [digitsVal, natChars] using this

/-- The printed form of a printable value is nonempty and starts with a
character that is neither whitespace nor a closing parenthesis. -/
theorem printChars_head : ∀ v : SVal, goodV v = true →
    ∃ c tl, printChars v = c :: tl ∧ isSpaceC c = false ∧ c ≠ ')' := by
  intro v hg
  cases v with
  | iv i =>
    by_cases hneg : i < 0
    · exact ⟨'-', natChars i.natAbs, by simp [printChars, printParts, intChars, hneg],
        by decide, by decide⟩
    · have hs := natChars_spec i.toNat
      cases hnc : natChars i.toNat with
      | nil => exact absurd hnc hs.1
      | cons c tl =>
        have hdc : isDigC c = true := by
          apply hs.2
          rw [hnc]
          exact List.mem_cons_self c tl
        have := digC_facts hdc
        exact ⟨c, tl, by simp [printChars, printParts, intChars, hneg, hnc], this.1, this.2⟩
  | sv str =>
    cases hsd : str.data with
    | nil => rw [show goodV (SVal.sv str) = goodSymL str.data from rfl, goodSymL.eq_def, hsd] at hg; exact Bool.noConfusion hg
    | cons c tl =>
      rw [show goodV (SVal.sv str) = goodSymL str.data from rfl, goodSymL.eq_def, hsd] at hg
      simp only [Bool.and_eq_true] at hg
      have := symHead_facts (by simpa using hg.1.1.1)
      exact ⟨c, tl, by simp [printChars, printParts, hsd], this.1, this.2.2⟩
  | nilv => exact ⟨'N', ['i', 'l'], rfl, by decide, by decide⟩
  | truev => exact ⟨'T', ['r', 'u', 'e'], rfl, by decide, by decide⟩
  | consv a d =>
    exact ⟨'(', ((printParts a).1 ++ (printParts d).2) ++ [')'],
      by simp [printChars, printParts], by decide, by decide⟩
  | primv => exact absurd hg (by simp [goodV])
  | funcv => exact absurd hg (by simp [goodV])

/-- The tail text of a chain, followed by `)`, always starts at a
symbol-stopping character (a space, or the `)` itself). -/
theorem tail_stopsSym (d : SVal) (rest : List Char) :
    stopsSym ((printParts d).2 ++ ')' :: rest) = true := by
  have h1 : symCharB ')' = false := by decide
  have h2 : symCharB ' ' = false := by decide
  cases d <;> simp [printParts, stopsSym, h1, h2]

theorem canonParts_2_eq : ∀ d : SVal,
    (canonParts d).2 = listToSV ((elemsOf d).map canonV) := by
  intro d
  induction d with
  | consv a d iha ihd => simp [canonParts, elemsOf, listToSV, canonV, ihd]
  | iv i => rfl
  | sv s => rfl
  | nilv => rfl
  | truev => rfl
  | primv => rfl
  | funcv => rfl

/-- One step of the list-reading loop when the next non-space character
opens an element. -/
theorem runRead_list_step (n : Nat) (cs : List Char) (acc : List SVal) (c : Char)
    (cs' : List Char) (hdw : cs.dropWhile isSpaceC = c :: cs') (hc : c ≠ ')') :
    runRead (n + 1) (.rdList cs acc) =
      match runRead n (.rd (c :: cs')) with
      | .okR v rest => runRead n (.rdList rest (acc ++ [v]))
      | .errR m => .errR m
      | .timeoutR => .timeoutR
      | .eofR => .timeoutR := by
  have : runRead (n + 1) (.rdList cs acc) =
      match cs.dropWhile isSpaceC with
      | [] => runRead n (.rdList [] acc)
      | c :: cs' =>
        if c = ')' then .okR (listToSV acc) cs'
        else
          match runRead n (.rd (c :: cs')) with
          | .okR v rest => runRead n (.rdList rest (acc ++ [v]))
          | .errR m => .errR m
          | .timeoutR => .timeoutR
          | .eofR => .timeoutR := rfl
  rw [this, hdw]
  exact if_neg hc

/-- One step of the list-reading loop when the next non-space character
closes the list. -/
theorem runRead_list_close (n : Nat) (cs : List Char) (acc : List SVal)
    (cs' : List Char) (hdw : cs.dropWhile isSpaceC = ')' :: cs') :
    runRead (n + 1) (.rdList cs acc) = .okR (listToSV acc) cs' := by
  have : runRead (n + 1) (.rdList cs acc) =
      match cs.dropWhile isSpaceC with
      | [] => runRead n (.rdList [] acc)
      | c :: cs' =>
        if c = ')' then .okR (listToSV acc) cs'
        else
          match runRead n (.rd (c :: cs')) with
          | .okR v rest => runRead n (.rdList rest (acc ++ [v]))
          | .errR m => .errR m
          | .timeoutR => .timeoutR
          | .eofR => .timeoutR := rfl
  rw [this, hdw]
  exact if_pos rfl

/-- The tail of a chain with a non-`Nil` terminal (here: every non-pair
value) prints as a space followed by the terminal's own text. -/
theorem printParts_2_terminal (t : SVal) (h1 : ∀ x y, t ≠ .consv x y)
    (h2 : t ≠ .nilv) : (printParts t).2 = ' ' :: printChars t := by
  cases t with
  | consv x y => exact absurd rfl (h1 x y)
  | nilv => exact absurd rfl h2
  | iv i => rfl
  | sv s => rfl
  | truev => rfl
  | primv => rfl
  | funcv => rfl

theorem stopsSym_rparen (r : List Char) : stopsSym (')' :: r) = true := by
  have h : symCharB ')' = false := by decide
  simp [stopsSym, h]

/-- The central reading lemma for the round-trip property, by strong
induction on the size of the value.  First part: reading the printed text of
a printable value, followed by any symbol-stopping remainder, yields exactly
the canonical re-read value and the untouched remainder.  Second part: the
list-reading loop, fed the printed tail of a chain plus the closing `)`,
appends the canonical elements to its accumulator. -/
theorem readPrintMain : ∀ n : Nat,
    (∀ v : SVal, sizeOf v ≤ n → goodV v = true → ∀ (f : Nat) (rest : List Char),
      stopsSym rest = true → 2 * (printChars v ++ rest).length + 2 ≤ f →
      read f (printChars v ++ rest) = .okR (canonV v) rest) ∧
    (∀ d : SVal, sizeOf d ≤ n → goodV d = true →
      ∀ (f : Nat) (rest : List Char) (acc : List SVal),
      stopsSym rest = true → 2 * ((printParts d).2 ++ ')' :: rest).length + 3 ≤ f →
      runRead f (.rdList ((printParts d).2 ++ ')' :: rest) acc) =
        .okR (listToSV (acc ++ (elemsOf d).map canonV)) rest) := by
  intro n
  induction n using Nat.strong_induction_on with
  | _ n ih =>
  have H1 : ∀ v : SVal, sizeOf v ≤ n → goodV v = true → ∀ (f : Nat) (rest : List Char),
      stopsSym rest = true → 2 * (printChars v ++ rest).length + 2 ≤ f →
      read f (printChars v ++ rest) = .okR (canonV v) rest := by
    intro v hsz hg f rest hr hf
    cases v with
    | iv i =>
      have hrange : -(2 ^ 31) < i ∧ i < 2 ^ 31 := by
        simpa [goodV] using hg
      cases f with
      | zero => omega
      | succ f1 =>
        by_cases hneg : i < 0
        · have hspec := natChars_spec i.natAbs
          have hsz31 : digitsVal (natChars i.natAbs) < 2 ^ 31 := by
            rw [natChars_val]
            omega
          have h := (read_number_ok (natChars i.natAbs) rest f1 hspec.1 hspec.2
            (stopsSym_stopsNum hr) hsz31).2
          rw [natChars_val] at h
          have hpc : printChars (SVal.iv i) = '-' :: natChars i.natAbs := by
            simp [printChars, printParts, intChars, hneg]
          rw [hpc]
          rw [show ('-' :: natChars i.natAbs) ++ rest = '-' :: (natChars i.natAbs ++ rest)
            from rfl]
          rw [h]
          have : -((i.natAbs : Nat) : Int) = i := by omega
          rw [this]
          rfl
        · have hspec := natChars_spec i.toNat
          have hsz31 : digitsVal (natChars i.toNat) < 2 ^ 31 := by
            rw [natChars_val]
            omega
          have h := (read_number_ok (natChars i.toNat) rest f1 hspec.1 hspec.2
            (stopsSym_stopsNum hr) hsz31).1
          rw [natChars_val] at h
          have hpc : printChars (SVal.iv i) = natChars i.toNat := by
            simp [printChars, printParts, intChars, hneg]
          rw [hpc, h]
          have : ((i.toNat : Nat) : Int) = i := by omega
          rw [this]
          rfl
    | sv str =>
      cases f with
      | zero => omega
      | succ f1 =>
        have h := read_symbol_ok str.data rest f1 (by simpa [goodV] using hg) hr
        rw [show printChars (SVal.sv str) = str.data from rfl, h, String.mk_data]
        rfl
    | nilv =>
      cases f with
      | zero => omega
      | succ f1 => exact read_symbol_ok "Nil".data rest f1 (by decide) hr
    | truev =>
      cases f with
      | zero => omega
      | succ f1 => exact read_symbol_ok "True".data rest f1 (by decide) hr
    | primv => simp [goodV] at hg
    | funcv => simp [goodV] at hg
    | consv a d =>
      have hgs : goodV a = true ∧ goodV d = true := by simpa [goodV] using hg
      have hsza : sizeOf a < n := by
        have := SVal.consv.sizeOf_spec a d
        omega
      have hszd : sizeOf d < n := by
        have := SVal.consv.sizeOf_spec a d
        omega
      have L1a := (ih (sizeOf a) hsza).1 a le_rfl hgs.1
      have L2d := (ih (sizeOf d) hszd).2 d le_rfl hgs.2
      obtain ⟨c, tl, hpa, hcs, hcp⟩ := printChars_head a hgs.1
      have hshape : printChars (SVal.consv a d) ++ rest =
          '(' :: (printChars a ++ ((printParts d).2 ++ ')' :: rest)) := by
        simp [printChars, printParts]
      cases f with
      | zero => omega
      | succ f1 =>
      cases f1 with
      | zero => omega
      | succ f2 =>
        rw [hshape]
        have hopen : read (f2 + 1 + 1)
            ('(' :: (printChars a ++ ((printParts d).2 ++ ')' :: rest))) =
            runRead (f2 + 1)
              (.rdList (printChars a ++ ((printParts d).2 ++ ')' :: rest)) []) := rfl
        rw [hopen]
        have hdw : (printChars a ++ ((printParts d).2 ++ ')' :: rest)).dropWhile isSpaceC =
            c :: (tl ++ ((printParts d).2 ++ ')' :: rest)) := by
          rw [hpa, List.cons_append, List.dropWhile_cons, hcs]
          rfl
        rw [runRead_list_step f2 _ _ c _ hdw hcp]
        have hread := L1a f2 ((printParts d).2 ++ ')' :: rest) (tail_stopsSym d rest) (by
          rw [hshape] at hf
          simp only [List.length_cons, List.length_append] at hf ⊢
          omega)
        have hread2 : runRead f2
            (.rd (c :: (tl ++ ((printParts d).2 ++ ')' :: rest)))) =
            .okR (canonV a) ((printParts d).2 ++ ')' :: rest) := by
          rw [show c :: (tl ++ ((printParts d).2 ++ ')' :: rest)) =
            printChars a ++ ((printParts d).2 ++ ')' :: rest) by rw [hpa, List.cons_append]]
          exact hread
        rw [hread2]
        have hlist := L2d f2 rest [canonV a] hr (by
          rw [hshape] at hf
          have hpa1 : 1 ≤ (printChars a).length := by rw [hpa]; simp
          simp only [List.length_cons, List.length_append] at hf ⊢
          omega)
        have hval : listToSV ([canonV a] ++ (elemsOf d).map canonV) =
            canonV (SVal.consv a d) := by
          simp [listToSV, canonV, canonParts, canonParts_2_eq]
        simp only [List.nil_append, hlist, hval]
  refine ⟨H1, ?_⟩
  intro d hsz hg f rest acc hr hf
  have hrp : isSpaceC ')' = false := by decide
  have hsp : isSpaceC ' ' = true := by decide
  cases d with
  | nilv =>
    cases f with
    | zero => omega
    | succ f1 =>
      have hdw : ((printParts SVal.nilv).2 ++ ')' :: rest).dropWhile isSpaceC =
          ')' :: rest := by
        simp [printParts, List.dropWhile_cons, hrp]
      rw [runRead_list_close f1 _ _ _ hdw]
      simp [elemsOf]
  | consv a d2 =>
    have hgs : goodV a = true ∧ goodV d2 = true := by simpa [goodV] using hg
    have hsza : sizeOf a < n := by
      have := SVal.consv.sizeOf_spec a d2
      omega
    have hszd : sizeOf d2 < n := by
      have := SVal.consv.sizeOf_spec a d2
      omega
    have L1a := (ih (sizeOf a) hsza).1 a le_rfl hgs.1
    have L2d := (ih (sizeOf d2) hszd).2 d2 le_rfl hgs.2
    obtain ⟨c, tl, hpa, hcs, hcp⟩ := printChars_head a hgs.1
    have hshape : (printParts (SVal.consv a d2)).2 ++ ')' :: rest =
        ' ' :: (printChars a ++ ((printParts d2).2 ++ ')' :: rest)) := by
      simp [printParts, printChars]
    cases f with
    | zero => omega
    | succ f1 =>
      rw [hshape]
      have hdw : (' ' :: (printChars a ++ ((printParts d2).2 ++ ')' :: rest))).dropWhile
          isSpaceC = c :: (tl ++ ((printParts d2).2 ++ ')' :: rest)) := by
        rw [List.dropWhile_cons]
        simp only [hsp, if_true]
        rw [hpa, List.cons_append, List.dropWhile_cons, hcs]
        rfl
      rw [runRead_list_step f1 _ _ c _ hdw hcp]
      have hread := L1a f1 ((printParts d2).2 ++ ')' :: rest) (tail_stopsSym d2 rest) (by
        rw [hshape] at hf
        simp only [List.length_cons, List.length_append] at hf ⊢
        omega)
      have hread2 : runRead f1
          (.rd (c :: (tl ++ ((printParts d2).2 ++ ')' :: rest)))) =
          .okR (canonV a) ((printParts d2).2 ++ ')' :: rest) := by
        rw [show c :: (tl ++ ((printParts d2).2 ++ ')' :: rest)) =
          printChars a ++ ((printParts d2).2 ++ ')' :: rest) by rw [hpa, List.cons_append]]
        exact hread
      rw [hread2]
      have hlist := L2d f1 rest (acc ++ [canonV a]) hr (by
        rw [hshape] at hf
        have hpa1 : 1 ≤ (printChars a).length := by rw [hpa]; simp
        simp only [List.length_cons, List.length_append] at hf ⊢
        omega)
      have hval : listToSV ((acc ++ [canonV a]) ++ (elemsOf d2).map canonV) =
          listToSV (acc ++ (elemsOf (SVal.consv a d2)).map canonV) := by
        simp [elemsOf]
      simp only [hlist, hval]
  | iv i =>
    have hterm : (printParts (SVal.iv i)).2 = ' ' :: printChars (SVal.iv i) := rfl
    have helems : elemsOf (SVal.iv i) = [SVal.iv i] := rfl
    have H1t := H1 (SVal.iv i) hsz hg
    obtain ⟨c, tl, hpa, hcs, hcp⟩ := printChars_head (SVal.iv i) hg
    cases f with
    | zero => omega
    | succ f1 =>
    cases f1 with
    | zero => omega
    | succ f2 =>
      rw [hterm]
      have hdw : ((' ' :: printChars (SVal.iv i)) ++ ')' :: rest).dropWhile isSpaceC =
          c :: (tl ++ ')' :: rest) := by
        rw [List.cons_append, List.dropWhile_cons]
        simp only [hsp, if_true]
        rw [hpa, List.cons_append, List.dropWhile_cons, hcs]
        rfl
      rw [runRead_list_step (f2 + 1) _ _ c _ hdw hcp]
      have hread := H1t (f2 + 1) (')' :: rest) (stopsSym_rparen rest) (by
        rw [hterm] at hf
        simp only [List.length_cons, List.length_append] at hf ⊢
        omega)
      have hread2 : runRead (f2 + 1) (.rd (c :: (tl ++ ')' :: rest))) =
          .okR (canonV (SVal.iv i)) (')' :: rest) := by
        rw [show c :: (tl ++ ')' :: rest) = printChars (SVal.iv i) ++ ')' :: rest by
          rw [hpa, List.cons_append]]
        exact hread
      rw [hread2]
      have hdw2 : (')' :: rest).dropWhile isSpaceC = ')' :: rest := by
        rw [List.dropWhile_cons]
        simp [hrp]
      have hclose := runRead_list_close f2 (')' :: rest) (acc ++ [canonV (SVal.iv i)]) rest hdw2
      simp only [hclose]
      simp [helems]
  | sv str =>
    have hterm : (printParts (SVal.sv str)).2 = ' ' :: printChars (SVal.sv str) := rfl
    have helems : elemsOf (SVal.sv str) = [SVal.sv str] := rfl
    have H1t := H1 (SVal.sv str) hsz hg
    obtain ⟨c, tl, hpa, hcs, hcp⟩ := printChars_head (SVal.sv str) hg
    cases f with
    | zero => omega
    | succ f1 =>
    cases f1 with
    | zero => omega
    | succ f2 =>
      rw [hterm]
      have hdw : ((' ' :: printChars (SVal.sv str)) ++ ')' :: rest).dropWhile isSpaceC =
          c :: (tl ++ ')' :: rest) := by
        rw [List.cons_append, List.dropWhile_cons]
        simp only [hsp, if_true]
        rw [hpa, List.cons_append, List.dropWhile_cons, hcs]
        rfl
      rw [runRead_list_step (f2 + 1) _ _ c _ hdw hcp]
      have hread := H1t (f2 + 1) (')' :: rest) (stopsSym_rparen rest) (by
        rw [hterm] at hf
        simp only [List.length_cons, List.length_append] at hf ⊢
        omega)
      have hread2 : runRead (f2 + 1) (.rd (c :: (tl ++ ')' :: rest))) =
          .okR (canonV (SVal.sv str)) (')' :: rest) := by
        rw [show c :: (tl ++ ')' :: rest) = printChars (SVal.sv str) ++ ')' :: rest by
          rw [hpa, List.cons_append]]
        exact hread
      rw [hread2]
      have hdw2 : (')' :: rest).dropWhile isSpaceC = ')' :: rest := by
        rw [List.dropWhile_cons]
        simp [hrp]
      have hclose := runRead_list_close f2 (')' :: rest) (acc ++ [canonV (SVal.sv str)]) rest hdw2
      simp only [hclose]
      simp [helems]
  | truev =>
    have hterm : (printParts SVal.truev).2 = ' ' :: printChars SVal.truev := rfl
    have helems : elemsOf SVal.truev = [SVal.truev] := rfl
    have H1t := H1 SVal.truev hsz hg
    obtain ⟨c, tl, hpa, hcs, hcp⟩ := printChars_head SVal.truev hg
    cases f with
    | zero => omega
    | succ f1 =>
    cases f1 with
    | zero => omega
    | succ f2 =>
      rw [hterm]
      have hdw : ((' ' :: printChars SVal.truev) ++ ')' :: rest).dropWhile isSpaceC =
          c :: (tl ++ ')' :: rest) := by
        rw [List.cons_append, List.dropWhile_cons]
        simp only [hsp, if_true]
        rw [hpa, List.cons_append, List.dropWhile_cons, hcs]
        rfl
      rw [runRead_list_step (f2 + 1) _ _ c _ hdw hcp]
      have hread := H1t (f2 + 1) (')' :: rest) (stopsSym_rparen rest) (by
        rw [hterm] at hf
        simp only [List.length_cons, List.length_append] at hf ⊢
        omega)
      have hread2 : runRead (f2 + 1) (.rd (c :: (tl ++ ')' :: rest))) =
          .okR (canonV SVal.truev) (')' :: rest) := by
        rw [show c :: (tl ++ ')' :: rest) = printChars SVal.truev ++ ')' :: rest by
          rw [hpa, List.cons_append]]
        exact hread
      rw [hread2]
      have hdw2 : (')' :: rest).dropWhile isSpaceC = ')' :: rest := by
        rw [List.dropWhile_cons]
        simp [hrp]
      have hclose := runRead_list_close f2 (')' :: rest) (acc ++ [canonV SVal.truev]) rest hdw2
      simp only [hclose]
      simp [helems]
  | primv => simp [goodV] at hg
  | funcv => simp [goodV] at hg

/-- Counterexample to C2 as stated: the symbol value `a b` (quoted-text
symbols may contain spaces) prints as `a b`, but reading that text back as
one expression stops at the space and yields the symbol `a`, whose print
differs from the original text. -/
theorem C2_counterexample :
    read 20 (printChars (.sv "a b")) = .okR (.sv "a") [' ', 'b'] ∧
    printS (.sv "a") ≠ printS (.sv "a b") := by
  constructor
  · decide
  · decide

/-- C2 (amended): for every value built from integers strictly between
-2^31 and 2^31, symbols whose names are readable single tokens (nonempty,
within the length bound, made of symbol characters, not starting like a
number), `Nil`, `True`, and pairs of such values, reading the printed text
back as one expression succeeds, and printing the value read back yields
exactly the original text. -/
theorem C2_roundtrip (v : SVal) (f : Nat) (hg : goodV v = true)
    (hf : 2 * (printChars v).length + 2 ≤ f) :
    read f (printChars v) = .okR (canonV v) [] ∧ printS (canonV v) = printS v := by
  constructor
  · have h := (readPrintMain (sizeOf v)).1 v le_rfl hg f [] rfl (by simpa using hf)
    simpa using h
  · have h := print_canonParts v hg
    simp only [printS, canonV]
    rw [h.1]

/-- Witness for C2: the value `(-5 ab)` round-trips: reading its printed
text gives a value printing identically. -/
theorem C2_roundtrip_witness :
    read 20 (printChars (.consv (.iv (-5)) (.consv (.sv "ab") .nilv))) =
      .okR (canonV (.consv (.iv (-5)) (.consv (.sv "ab") .nilv))) [] ∧
    printS (canonV (.consv (.iv (-5)) (.consv (.sv "ab") .nilv))) =
      printS (.consv (.iv (-5)) (.consv (.sv "ab") .nilv)) :=
  C2_roundtrip (.consv (.iv (-5)) (.consv (.sv "ab") .nilv)) 20 (by decide) (by decide)

/-!
## While (C3)
-/

/-- Heap for C3: `env_init` followed by the program objects of
`(while (> x 0) (define x (- x 1)))`.
Addresses: 23 `3`; 24 `x`; 25 `while`; 26 `>`; 27 `define`; 28 `-`;
29 `0`; 30 `1`; 31-33 the list `(> x 0)`; 34-36 the list `(- x 1)`;
37-39 the list `(define x (- x 1))`; 40-42 the while expression itself. -/
def c3objs : List Obj := envInitObjs ++
  [.int 3, .sym "x", .sym "while", .sym ">", .sym "define", .sym "-",
   .int 0, .int 1,
   .cons 29 0, .cons 24 31, .cons 26 32,
   .cons 30 0, .cons 24 34, .cons 28 35,
   .cons 36 0, .cons 24 37, .cons 27 38,
   .cons 39 0, .cons 33 40, .cons 25 41]

/-- The initial state for C3: the root frame additionally binds `x` to the
`Integer 3` at address 23; the program expression is at address 42. -/
def c3st : St :=
  { objs := c3objs, envs := [⟨("x", 23) :: envInitTbl, none⟩], out := "",
    mutFlag := false }

/-- C3: evaluating `(while (> x 0) (define x (- x 1)))` with `x` bound to
`Integer 3` in the current frame terminates, returns `Nil`, and leaves `x`
bound to `Integer 0` in that frame; in general the `while` loop re-evaluates
its first argument before each iteration, stops when it is `Nil`, evaluates
every remaining expression once per iteration (via `eval_args`), and
whenever it returns at all it returns `Nil` (also through the `while`
primitive, which first checks for at least two arguments). -/
theorem C3_while :
    (resValue (run 100 (.eval c3st 0 42)) = some nilA ∧
      finalBinding (run 100 (.eval c3st 0 42)) 0 "x" = some (.int 0)) ∧
    (∀ (f : Nat) (s : St) (e c body : Nat) (s' : St) (v : Nat),
      run f (.whileLoop s e c body) = .ok s' v → v = nilA) ∧
    (∀ (f : Nat) (s : St) (e c body : Nat),
      run (f + 1) (.whileLoop s e c body) =
        rbind (run f (.eval s e c)) (fun s1 v =>
          if v = nilA then .ok s1 nilA
          else rbind (run f (.evalArgs s1 e body)) (fun s2 _ =>
            run f (.whileLoop s2 e c body)))) ∧
    (∀ (f : Nat) (s : St) (e args : Nat) (s' : St) (v : Nat),
      run f (.prim .pWhile s e args) = .ok s' v → v = nilA) := by
  have hstep : ∀ (f : Nat) (s : St) (e c body : Nat),
      run (f + 1) (.whileLoop s e c body) =
        rbind (run f (.eval s e c)) (fun s1 v =>
          if v = nilA then .ok s1 nilA
          else rbind (run f (.evalArgs s1 e body)) (fun s2 _ =>
            run f (.whileLoop s2 e c body))) := fun f s e c body => rfl
  have hnil : ∀ (f : Nat) (s : St) (e c body : Nat) (s' : St) (v : Nat),
      run f (.whileLoop s e c body) = .ok s' v → v = nilA := by
    intro f
    induction f with
    | zero =>
      intro s e c body s' v h
      exact absurd h (by simp [run])
    | succ f ihf =>
      intro s e c body s' v h
      rw [hstep] at h
      cases hc : run f (.eval s e c) with
      | ok s1 v1 =>
        rw [hc] at h
        simp only [rbind] at h
        by_cases hv1 : v1 = nilA
        · rw [if_pos hv1] at h
          cases h
          rfl
        · rw [if_neg hv1] at h
          cases ha : run f (.evalArgs s1 e body) with
          | ok s2 v2 =>
            rw [ha] at h
            simp only [rbind] at h
            exact ihf s2 e c body s' v h
          | err m => rw [ha] at h; exact absurd h (by simp [rbind])
          | crash => rw [ha] at h; exact absurd h (by simp [rbind])
          | timeout => rw [ha] at h; exact absurd h (by simp [rbind])
      | err m => rw [hc] at h; exact absurd h (by simp [rbind])
      | crash => rw [hc] at h; exact absurd h (by simp [rbind])
      | timeout => rw [hc] at h; exact absurd h (by simp [rbind])
  refine ⟨⟨by decide, by decide⟩, hnil, hstep, ?_⟩
  intro f s e args s' v h
  cases f with
  | zero => exact absurd h (by simp [run])
  | succ f =>
    have hp : run (f + 1) (.prim .pWhile s e args) =
        (match count s args with
         | some cnt =>
           if cnt < 2 then .err "while needs at least two arguments"
           else
             match getObj s args with
             | some (.cons c rest) => run f (.whileLoop s e c rest)
             | _ => .crash
         | none => .timeout) := rfl
    rw [hp] at h
    split at h
    · split at h
      · exact absurd h (by simp)
      · split at h
        · exact hnil f s e _ _ s' v h
        · exact absurd h (by simp)
    · exact absurd h (by simp)

/-- Witness for C3's universally quantified parts: the trivial loop whose
condition is the `Nil` singleton itself stops immediately and returns
`Nil`. -/
theorem C3_while_witness :
    run 2 (.whileLoop env_init 0 nilA nilA) = .ok env_init nilA ∧ nilA = nilA :=
  ⟨by decide, C3_while.2.1 2 env_init 0 nilA nilA env_init nilA (by decide)⟩

/-!
## Closure application (C1)
-/

/-- Read a parameter chain as the list of its symbol names (the traversal
order of the binding loop of `apply`); the loop stops at any non-cons
terminator.  `none`: fuel exhaustion or a non-symbol parameter. -/
def symChain : Nat → St → Nat → Option (List String)
  | 0, _, _ => none
  | n + 1, s, a =>
    match getObj s a with
    | some (.cons h t) =>
      match getObj s h with
      | some (.sym nm) => (symChain n s t).map (fun l => nm :: l)
      | _ => none
    | some _ => some []
    | none => none

/-- Read a heap-allocated argument list (as built by `eval_args`) as the
list of its element addresses; the list must be a proper chain ending at
the `Nil` singleton. -/
def heapList : Nat → St → Nat → Option (List Nat)
  | 0, _, _ => none
  | n + 1, s, a =>
    if a = nilA then some []
    else
      match getObj s a with
      | some (.cons h t) => (heapList n s t).map (fun l => h :: l)
      | _ => none

theorem getObj_insertFrame (s : St) (e : Nat) (k : String) (v a : Nat) :
    getObj (insertFrame s e k v) a = getObj s a := by
  unfold insertFrame
  cases s.envs.get? e <;> rfl

theorem symChain_insertFrame : ∀ (n : Nat) (s : St) (e : Nat) (k : String) (v a : Nat),
    symChain n (insertFrame s e k v) a = symChain n s a := by
  intro n
  induction n with
  | zero => intro s e k v a; rfl
  | succ n ih =>
    intro s e k v a
    simp only [symChain, getObj_insertFrame, ih]

theorem heapList_insertFrame : ∀ (n : Nat) (s : St) (e : Nat) (k : String) (v a : Nat),
    heapList n (insertFrame s e k v) a = heapList n s a := by
  intro n
  induction n with
  | zero => intro s e k v a; rfl
  | succ n ih =>
    intro s e k v a
    simp only [heapList, getObj_insertFrame, ih]

theorem symChain_length : ∀ (n : Nat) (s : St) (a : Nat) (names : List String),
    symChain n s a = some names → names.length < n := by
  intro n
  induction n with
  | zero => intro s a names h; exact absurd h (by simp [symChain])
  | succ n ih =>
    intro s a names h
    simp only [symChain] at h
    cases ho : getObj s a with
    | none => rw [ho] at h; exact absurd h (by simp)
    | some o =>
      rw [ho] at h
      cases o with
      | cons hd t =>
        simp only [] at h
        cases hh : getObj s hd with
        | none => rw [hh] at h; exact absurd h (by simp)
        | some oh =>
          rw [hh] at h
          cases oh with
          | sym nm =>
            simp only [Option.map_eq_some'] at h
            obtain ⟨l, hl, hln⟩ := h
            subst hln
            have := ih s t l hl
            simp only [List.length_cons]
            omega
          | int i => exact absurd h (by simp)
          | cons x y => exact absurd h (by simp)
          | nil => exact absurd h (by simp)
          | tru => exact absurd h (by simp)
          | prim p => exact absurd h (by simp)
          | func p b => exact absurd h (by simp)
      | int i => cases h; simp
      | sym nm => cases h; simp
      | nil => cases h; simp
      | tru => cases h; simp
      | prim p => cases h; simp
      | func p b => cases h; simp

/-- The binding loop of `apply`: on an all-symbol parameter chain and an
evaluated argument chain of equal length, it performs exactly the
positional `ht_insert`s into the frame `eid`, in order. -/
theorem bindAux_spec : ∀ (names : List String) (vs : List Nat) (n k1 k2 : Nat)
    (s : St) (eid params args : Nat),
    symChain k1 s params = some names → heapList k2 s args = some vs →
    names.length = vs.length → names.length < n →
    bindAux n s eid params args =
      .ok ((names.zip vs).foldl (fun st p => insertFrame st eid p.1 p.2) s) () := by
  intro names
  induction names with
  | nil =>
    intro vs n k1 k2 s eid params args h1 h2 hlen hn
    cases n with
    | zero => omega
    | succ n =>
      cases k1 with
      | zero => exact absurd h1 (by simp [symChain])
      | succ k1 =>
        simp only [symChain] at h1
        cases ho : getObj s params with
        | none => rw [ho] at h1; exact absurd h1 (by simp)
        | some o =>
          rw [ho] at h1
          cases o with
          | cons hd t =>
            exfalso
            simp only [] at h1
            cases hh : getObj s hd with
            | none => rw [hh] at h1; simp at h1
            | some oh =>
              rw [hh] at h1
              cases oh <;> simp at h1
          | int i => simp [bindAux, ho]
          | sym nm => simp [bindAux, ho]
          | nil => simp [bindAux, ho]
          | tru => simp [bindAux, ho]
          | prim p => simp [bindAux, ho]
          | func p b => simp [bindAux, ho]
  | cons nm names ih =>
    intro vs n k1 k2 s eid params args h1 h2 hlen hn
    cases vs with
    | nil => simp at hlen
    | cons v vs =>
      cases n with
      | zero => omega
      | succ n =>
        cases k1 with
        | zero => exact absurd h1 (by simp [symChain])
        | succ k1 =>
          cases k2 with
          | zero => exact absurd h2 (by simp [heapList])
          | succ k2 =>
            simp only [symChain] at h1
            simp only [heapList] at h2
            cases ho : getObj s params with
            | none => rw [ho] at h1; exact absurd h1 (by simp)
            | some o =>
              rw [ho] at h1
              cases o with
              | cons hd t =>
                simp only [] at h1
                cases hh : getObj s hd with
                | none => rw [hh] at h1; exact absurd h1 (by simp)
                | some oh =>
                  rw [hh] at h1
                  cases oh with
                  | sym nm' =>
                    simp only [] at h1
                    simp only [Option.map_eq_some'] at h1
                    obtain ⟨l, hl, hln⟩ := h1
                    simp only [List.cons.injEq] at hln
                    obtain ⟨hnm, hlnames⟩ := hln
                    subst hnm
                    subst hlnames
                    by_cases hargs : args = nilA
                    · rw [if_pos hargs] at h2
                      cases h2
                    · rw [if_neg hargs] at h2
                      cases ha : getObj s args with
                      | none => rw [ha] at h2; exact absurd h2 (by simp)
                      | some oa =>
                        rw [ha] at h2
                        cases oa with
                        | cons ah at' =>
                          simp only [] at h2
                          simp only [Option.map_eq_some'] at h2
                          obtain ⟨lv, hlv, hlvn⟩ := h2
                          simp only [List.cons.injEq] at hlvn
                          obtain ⟨hv, hlvs⟩ := hlvn
                          subst hv
                          subst hlvs
                          have hb : bindAux (n + 1) s eid params args =
                              bindAux n (insertFrame s eid nm' ah) eid t at' := by
                            simp [bindAux, ho, hh, ha]
                          rw [hb]
                          have h1' : symChain k1 (insertFrame s eid nm' ah) t = some l := by
                            rw [symChain_insertFrame]
                            exact hl
                          have h2' : heapList k2 (insertFrame s eid nm' ah) at' = some lv := by
                            rw [heapList_insertFrame]
                            exact hlv
                          have := ih lv n k1 k2 (insertFrame s eid nm' ah) eid t at' h1' h2'
                            (by simpa using hlen) (by simp at hn ⊢; omega)
                          rw [this]
                          simp [List.zip]
                        | int i => exact absurd h2 (by simp)
                        | sym s2 => exact absurd h2 (by simp)
                        | nil => exact absurd h2 (by simp)
                        | tru => exact absurd h2 (by simp)
                        | prim p => exact absurd h2 (by simp)
                        | func p b => exact absurd h2 (by simp)
                  | int i => exact absurd h1 (by simp)
                  | cons x y => exact absurd h1 (by simp)
                  | nil => exact absurd h1 (by simp)
                  | tru => exact absurd h1 (by simp)
                  | prim p => exact absurd h1 (by simp)
                  | func p b => exact absurd h1 (by simp)
              | int i => cases h1; | sym s2 => cases h1
              | nil => cases h1
              | tru => cases h1
              | prim p => cases h1
              | func p b => cases h1

theorem rbind_id {r : Res Nat} : rbind r (fun s v => .ok s v) = r := by
  cases r <;> rfl

theorem getObj_envs (s : St) (E : List Frame) (a : Nat) :
    getObj { s with envs := E } a = getObj s a := rfl

theorem symChain_envs : ∀ (n : Nat) (s : St) (E : List Frame) (a : Nat),
    symChain n { s with envs := E } a = symChain n s a := by
  intro n
  induction n with
  | zero => intro s E a; rfl
  | succ n ih =>
    intro s E a
    simp only [symChain, getObj_envs, ih]

theorem heapList_envs : ∀ (n : Nat) (s : St) (E : List Frame) (a : Nat),
    heapList n { s with envs := E } a = heapList n s a := by
  intro n
  induction n with
  | zero => intro s E a; rfl
  | succ n ih =>
    intro s E a
    simp only [heapList, getObj_envs, ih]

/-- Folding the binding inserts over a frame prepends the bindings in
reverse order and keeps the parent. -/
theorem insertList_frame : ∀ (l : List (String × Nat)) (s : St) (eid : Nat)
    (t0 : List (String × Nat)) (p0 : Option Nat),
    s.envs.get? eid = some ⟨t0, p0⟩ →
    (l.foldl (fun st p => insertFrame st eid p.1 p.2) s).envs.get? eid =
      some ⟨l.reverse ++ t0, p0⟩ := by
  intro l
  induction l with
  | nil => intro s eid t0 p0 h; simpa using h
  | cons p rest ih =>
    intro s eid t0 p0 h
    have hlt : eid < s.envs.length := by
      by_contra hge
      rw [List.get?_eq_none.2 (by omega)] at h
      exact Option.noConfusion h
    have hins : (insertFrame s eid p.1 p.2).envs.get? eid =
        some ⟨(p.1, p.2) :: t0, p0⟩ := by
      simp only [insertFrame, h]
      simp [List.get?_set_eq, hlt, h]
    have := ih (insertFrame s eid p.1 p.2) eid ((p.1, p.2) :: t0) p0 hins
    simpa using this

/-- In an association list with pairwise distinct keys, `find?` locates the
unique entry for a present key. -/
theorem find_of_nodup_keys : ∀ (l : List (String × Nat)) (nm : String) (v : Nat),
    (l.map Prod.fst).Nodup → (nm, v) ∈ l →
    l.find? (fun p => p.1 == nm) = some (nm, v) := by
  intro l
  induction l with
  | nil => intro nm v _ hm; simp at hm
  | cons p rest ih =>
    intro nm v hnd hm
    simp only [List.map_cons, List.nodup_cons] at hnd
    by_cases hp : p.1 = nm
    · have hpv : p = (nm, v) := by
        rcases List.mem_cons.1 hm with h | h
        · exact h.symm
        · exfalso
          apply hnd.1
          rw [hp]
          exact List.mem_map.2 ⟨(nm, v), h, rfl⟩
      rw [List.find?_cons_of_pos _ (by simp [hp])]
      rw [hpv]
    · rw [List.find?_cons_of_neg _ (by simp [hp])]
      apply ih nm v hnd.2
      rcases List.mem_cons.1 hm with h | h
      · exfalso
        apply hp
        rw [← h]
      · exact h

/-- C1: applying a closure evaluates the argument expressions via
`eval_args` in the caller's environment `e` (left to right, producing the
value list `vs`), creates a new empty frame chained to the caller's current
environment (its index is `s1.envs.length`, its parent is `e`, not anything
captured by the closure -- the closure object stores no environment at
all), binds each parameter symbol positionally to the corresponding
evaluated argument, and returns the result of `progn` on the body in that
frame (for a one-expression body, the value of that last body expression).
-/
theorem C1_apply_closure :
    (∀ (f : Nat) (s s1 : St) (e fA args params body vargs : Nat)
      (names : List String) (vs : List Nat),
      getObj s fA = some (.func params body) →
      run f (.evalArgs s e args) = .ok s1 vargs →
      symChain (s1.objs.length + 1) s1 params = some names →
      heapList (s1.objs.length + 1) s1 vargs = some vs →
      names.length = vs.length →
      run (f + 1) (.apply s e fA args) =
        run f (.progn ((names.zip vs).foldl
            (fun st p => insertFrame st s1.envs.length p.1 p.2)
            { s1 with envs := s1.envs ++ [⟨[], some e⟩] })
          s1.envs.length body none) ∧
      ((names.zip vs).foldl (fun st p => insertFrame st s1.envs.length p.1 p.2)
          { s1 with envs := s1.envs ++ [⟨[], some e⟩] }).envs.get? s1.envs.length =
        some ⟨(names.zip vs).reverse, some e⟩ ∧
      (names.Nodup → ∀ (i : Nat) (hi : i < names.length) (hv : i < vs.length),
        frameBinding ((names.zip vs).foldl
            (fun st p => insertFrame st s1.envs.length p.1 p.2)
            { s1 with envs := s1.envs ++ [⟨[], some e⟩] })
          s1.envs.length (names.get ⟨i, hi⟩) = some (vs.get ⟨i, hv⟩))) ∧
    (∀ (g : Nat) (s' : St) (e' aa h : Nat), aa ≠ nilA →
      getObj s' aa = some (.cons h nilA) →
      run (g + 2) (.progn s' e' aa none) = run (g + 1) (.eval s' e' h)) := by
  constructor
  · intro f s s1 e fA args params body vargs names vs hfn hargs hsym hlist hlen
    have happly : run (f + 1) (.apply s e fA args) =
        rbind (run f (.evalArgs s e args)) (fun s1' vargs' =>
          rbind (bindParams { s1' with envs := s1'.envs ++ [⟨[], some e⟩] }
              s1'.envs.length params vargs')
            (fun s3 _ => run f (.progn s3 s1'.envs.length body none))) := by
      simp [run, hfn]
    have hsym2 : symChain ((({ s1 with envs := s1.envs ++ [⟨[], some e⟩] } : St)).objs.length + 1)
        { s1 with envs := s1.envs ++ [⟨[], some e⟩] } params = some names := by
      rw [symChain_envs]
      exact hsym
    have hlist2 : heapList ((({ s1 with envs := s1.envs ++ [⟨[], some e⟩] } : St)).objs.length + 1)
        { s1 with envs := s1.envs ++ [⟨[], some e⟩] } vargs = some vs := by
      rw [heapList_envs]
      exact hlist
    have hbind : bindParams { s1 with envs := s1.envs ++ [⟨[], some e⟩] }
        s1.envs.length params vargs =
        .ok ((names.zip vs).foldl (fun st p => insertFrame st s1.envs.length p.1 p.2)
          { s1 with envs := s1.envs ++ [⟨[], some e⟩] }) () := by
      unfold bindParams
      exact bindAux_spec names vs _ _ _ _ s1.envs.length params vargs hsym2 hlist2 hlen
        (symChain_length _ _ _ _ hsym2)
    have hframe : (({ s1 with envs := s1.envs ++ [⟨[], some e⟩] } : St)).envs.get?
        s1.envs.length = some ⟨[], some e⟩ := by
      simp [List.get?_concat_length]
    have hget := insertList_frame (names.zip vs)
      { s1 with envs := s1.envs ++ [⟨[], some e⟩] } s1.envs.length [] (some e) hframe
    refine ⟨?_, by simpa using hget, ?_⟩
    · rw [happly, hargs]
      simp only [rbind]
      rw [hbind]
    · intro hnd i hi hv
      have hzl : i < (names.zip vs).length := by
        rw [List.length_zip]
        omega
      have hget2 : (names.zip vs).get ⟨i, hzl⟩ = (names.get ⟨i, hi⟩, vs.get ⟨i, hv⟩) := by
        simp [List.get_eq_getElem, List.getElem_zip]
      have hmem : (names.get ⟨i, hi⟩, vs.get ⟨i, hv⟩) ∈ (names.zip vs).reverse := by
        rw [List.mem_reverse, ← hget2]
        exact List.get_mem _ _ _
      have hndk : (((names.zip vs).reverse).map Prod.fst).Nodup := by
        rw [List.map_reverse, List.nodup_reverse, List.map_fst_zip names vs (by omega)]
        exact hnd
      have hget3 : ((names.zip vs).foldl (fun st p => insertFrame st s1.envs.length p.1 p.2)
          { s1 with envs := s1.envs ++ [⟨[], some e⟩] }).envs.get? s1.envs.length =
          some ⟨(names.zip vs).reverse, some e⟩ := by simpa using hget
      unfold frameBinding
      rw [hget3]
      simp only []
      rw [find_of_nodup_keys _ _ _ hndk hmem]
      rfl
  · intro g s' e' aa h haa hobj
    have hstep : run (g + 2) (.progn s' e' aa none) =
        rbind (run (g + 1) (.eval s' e' h))
          (fun s1 v => run (g + 1) (.progn s1 e' nilA (some v))) := by
      simp [run, haa, hobj]
    rw [hstep]
    have h2 : ∀ (s1 : St) (v : Nat),
        run (g + 1) (.progn s1 e' nilA (some v)) = .ok s1 v := fun s1 v => rfl
    simp only [h2]
    exact rbind_id

/-- Heap for the C1 witness: the closure `(lambda (x) x)` at address 6
(parameters `(x)` at 4, body `(x)` at 5) applied to the argument list `(5)`
at address 7; the integer `5` is at address 2. -/
def c1objs : List Obj :=
  [.nil, .tru, .int 5, .sym "x", .cons 3 0, .cons 3 0, .func 4 5, .cons 2 0]

/-- Initial state for the C1 witness: one empty root frame. -/
def c1st : St := { objs := c1objs, envs := [⟨[], none⟩], out := "", mutFlag := false }

/-- The state after `eval_args` evaluated `(5)`: one fresh result cell. -/
def c1s1 : St := { c1st with objs := c1objs ++ [.cons 2 0] }

/-- Witness for C1: applying the closure at 6 to `(5)` runs the body in a
fresh frame 1 whose parent is the caller's environment 0 and which binds
`x` to the evaluated argument. -/
theorem C1_apply_closure_witness :
    run 4 (.apply c1st 0 6 7) =
      run 3 (.progn (((["x"].zip [2]).foldl
          (fun st p => insertFrame st c1s1.envs.length p.1 p.2)
          { c1s1 with envs := c1s1.envs ++ [⟨[], some 0⟩] })) c1s1.envs.length 5 none) ∧
    ((["x"].zip [2]).foldl (fun st p => insertFrame st c1s1.envs.length p.1 p.2)
        { c1s1 with envs := c1s1.envs ++ [⟨[], some 0⟩] }).envs.get? c1s1.envs.length =
      some ⟨(["x"].zip [2]).reverse, some 0⟩ :=
  ⟨(C1_apply_closure.1 3 c1st c1s1 0 6 7 4 5 8 ["x"] [2] (by decide) (by decide)
      (by decide) (by decide) (by decide)).1,
   (C1_apply_closure.1 3 c1st c1s1 0 6 7 4 5 8 ["x"] [2] (by decide) (by decide)
      (by decide) (by decide) (by decide)).2.1⟩

/-!
## defun (C4)
-/

theorem getObj_lt {s : St} {a : Nat} {o : Obj} (h : getObj s a = some o) :
    a < s.objs.length := by
  by_contra hge
  rw [getObj, List.get?_eq_none.2 (by omega)] at h
  exact Option.noConfusion h

theorem getObj_append {s : St} {l : List Obj} {a : Nat} (h : a < s.objs.length) :
    getObj { s with objs := s.objs ++ l } a = getObj s a := by
  simp only [getObj, List.get?_append h]

theorem getObj_append_at (s : St) (l : List Obj) (o : Obj) :
    getObj { s with objs := s.objs ++ o :: l } s.objs.length = some o := by
  simp only [getObj]
  rw [List.get?_append_right (by omega)]
  simp

theorem getObj_setObj_self {s : St} {a : Nat} (o : Obj) (h : a < s.objs.length) :
    getObj (setObj s a o) a = some o := by
  simp [getObj, setObj, List.get?_set_eq, h]

theorem getObj_setObj_ne {s : St} {a b : Nat} (o : Obj) (h : b ≠ a) :
    getObj (setObj s a o) b = getObj s b := by
  simp only [getObj, setObj, List.get?_eq_getElem?]
  rw [List.getElem?_set_ne (by omega)]

/-- `count` of a two-element proper list is 2. -/
theorem count_two (s : St) (a r x y : Nat) (h0 : getObj s nilA = some .nil)
    (ha : getObj s a = some (.cons x r)) (hr : getObj s r = some (.cons y nilA)) :
    count s a = some 2 := by
  have hla := getObj_lt ha
  have hl0 := getObj_lt h0
  have hne : a ≠ nilA := by
    intro he
    rw [he, h0] at ha
    simp at ha
  have h2 : 2 ≤ s.objs.length := by
    simp only [nilA] at hne hl0
    omega
  obtain ⟨m, hm⟩ : ∃ m, s.objs.length = m + 2 := ⟨s.objs.length - 2, by omega⟩
  rw [count, hm]
  show countAux (m + 3) s a = some 2
  have h0' : getObj s 0 = some .nil := h0
  simp [countAux, ha, hr, h0', nilA]

/-- Binding a name makes it the first hit of the frame lookup. -/
theorem frameBinding_insert {s : St} {e : Nat} {fr : Frame} (nm : String) (v : Nat)
    (h : s.envs.get? e = some fr) :
    frameBinding (insertFrame s e nm v) e nm = some v := by
  have hlt : e < s.envs.length := by
    by_contra hge
    rw [List.get?_eq_none.2 (by omega)] at h
    exact Option.noConfusion h
  simp only [frameBinding, insertFrame, h]
  simp [List.get?_set_eq, hlt, h, List.find?_cons_of_pos]

/-- Dispatch step: a call expression whose operator evaluates to a
primitive, with a well-formed (cons) argument list, reduces to `apply`. -/
theorem run_eval_call (n : Nat) (s s1 : St) (e a carA cdrA fnA : Nat) (p : PrimName)
    (x y : Nat)
    (h : getObj s a = some (.cons carA cdrA))
    (hev : run n (.eval s e carA) = .ok s1 fnA)
    (hp : getObj s1 fnA = some (.prim p))
    (hargs : getObj s1 cdrA = some (.cons x y)) :
    run (n + 1) (.eval s e a) = run n (.apply s1 e fnA cdrA) := by
  simp only [run, h]
  rw [hev]
  simp only [rbind, hp, hargs]

/-- Dispatch step: applying a primitive object invokes the primitive. -/
theorem run_apply_prim (n : Nat) (s : St) (e fnA args : Nat) (p : PrimName)
    (hp : getObj s fnA = some (.prim p)) :
    run (n + 1) (.apply s e fnA args) = run n (.prim p s e args) := by
  simp only [run, hp]

/-- `lambda` ignores fuel and environment: it just builds the closure. -/
theorem run_prim_lambda (n : Nat) (s : St) (e args : Nat) :
    run (n + 1) (.prim .pLambda s e args) = primitive_lambda s args := rfl

/-- One step of `defun` (core.c:511): build the closure from `args->cdr`,
overwrite `args->cdr` with a fresh cell holding it, and run `define`. -/
theorem run_prim_defun_step (n : Nat) (s : St) (e args a0 d0 : Nat)
    (h : getObj s args = some (.cons a0 d0)) :
    run (n + 1) (.prim .pDefun s e args) =
      rbind (primitive_lambda s d0) (fun s1 fnA =>
        run n (.prim .pDefine
          { setObj { s1 with objs := s1.objs ++ [.cons fnA nilA] } args
              (.cons a0 s1.objs.length) with mutFlag := true } e args)) := by
  simp only [run, h]
  rfl

/-- One step of `define` (core.c:345) on a well-formed two-element argument
list headed by a symbol. -/
theorem run_prim_define_step (n : Nat) (s : St) (e args a1 r1 a2 q : Nat) (nm : String)
    (hc : count s args = some 2)
    (h1 : getObj s args = some (.cons a1 r1))
    (hs : getObj s a1 = some (.sym nm))
    (h2 : getObj s r1 = some (.cons a2 q)) :
    run (n + 1) (.prim .pDefine s e args) =
      rbind (run n (.eval s e a2)) (fun s1 v => .ok (insertFrame s1 e nm v) v) := by
  simp only [run, hc, h1, hs, h2]

/-- A function object evaluates to itself. -/
theorem run_eval_func (n : Nat) (s : St) (e a : Nat) (params body : Nat)
    (h : getObj s a = some (.func params body)) :
    run (n + 1) (.eval s e a) = .ok s a := by
  simp only [run, h]

/-- The heap cell at index `s.objs.length + 1` of a two-cell extension. -/
theorem getObj_append_at1 (s : St) (l : List Obj) (o1 o2 : Obj) :
    getObj { s with objs := s.objs ++ o1 :: o2 :: l } (s.objs.length + 1) = some o2 := by
  simp only [getObj, List.get?_eq_getElem?]
  rw [List.getElem?_append_right (by omega)]
  simp

/-- Full characterisation of the heap after `defun` allocates the closure and
the fresh cons cell and overwrites `args->cdr` (core.c:517). -/
theorem getObj_defun_state (s : St) (argsA nA b : Nat) (o1 : Obj)
    (hlA : argsA < s.objs.length) :
    getObj { setObj { s with objs := s.objs ++ [o1, .cons s.objs.length nilA] }
        argsA (.cons nA (s.objs.length + 1)) with mutFlag := true } b =
      if b = argsA then some (.cons nA (s.objs.length + 1))
      else if b = s.objs.length then some o1
      else if b = s.objs.length + 1 then some (.cons s.objs.length nilA)
      else getObj s b := by
  show getObj (setObj { s with objs := s.objs ++ [o1, .cons s.objs.length nilA] }
      argsA (.cons nA (s.objs.length + 1))) b = _
  by_cases h1 : b = argsA
  · subst h1
    rw [getObj_setObj_self _ (show b < (s.objs ++ [o1, .cons s.objs.length nilA]).length by
      simp only [List.length_append, List.length_cons, List.length_nil]; omega)]
    rw [if_pos rfl]
  · rw [getObj_setObj_ne _ h1, if_neg h1]
    by_cases h2 : b = s.objs.length
    · subst h2
      rw [if_pos rfl]
      exact getObj_append_at s [.cons s.objs.length nilA] o1
    · rw [if_neg h2]
      by_cases h3 : b = s.objs.length + 1
      · subst h3
        rw [if_pos rfl]
        exact getObj_append_at1 s [] o1 (.cons s.objs.length nilA)
      · rw [if_neg h3]
        by_cases h4 : b < s.objs.length
        · exact getObj_append h4
        · show (s.objs ++ [o1, .cons s.objs.length nilA]).get? b = getObj s b
          rw [List.get?_eq_none.2 (by
              simp only [List.length_append, List.length_cons, List.length_nil]; omega)]
          rw [getObj, List.get?_eq_none.2 (by omega)]

/-- C4: `(defun name params body...)` behaves like
`(define name (lambda params body...))`.  First conjunct: a call expression
whose head evaluates to a primitive dispatches to that primitive with the
unevaluated argument list, so `defun` and `define` are reached the same way.
Second conjunct: on argument lists laid out as `(name params . body)` for
`defun` versus `(name (lambda params . body))` for `define` -- sharing the
name string, the parameter chain and the body chain -- both runs succeed,
both return the address of a freshly allocated closure carrying exactly those
parameters and body, and both bind the name to that closure in the current
frame. -/
theorem C4_defun_define :
    (∀ (n : Nat) (s s1 : St) (e a carA cdrA fnA : Nat) (p : PrimName) (x y : Nat),
      getObj s a = some (.cons carA cdrA) →
      run (n + 1) (.eval s e carA) = .ok s1 fnA →
      getObj s1 fnA = some (.prim p) →
      getObj s1 cdrA = some (.cons x y) →
      run (n + 2) (.eval s e a) = run n (.prim p s1 e cdrA)) ∧
    (∀ (f : Nat) (s : St) (e : Nat) (fr : Frame)
      (argsA nA rA pA bChain : Nat) (nm : String)
      (argsE nA2 rE lamX lamC D1 lamP : Nat),
      getObj s nilA = some .nil →
      s.envs.get? e = some fr →
      getObj s argsA = some (.cons nA rA) →
      getObj s rA = some (.cons pA bChain) →
      getObj s nA = some (.sym nm) →
      checkParamsAux (s.objs.length + 1) s pA = some true →
      getObj s argsE = some (.cons nA2 rE) →
      getObj s rE = some (.cons lamX nilA) →
      getObj s nA2 = some (.sym nm) →
      getObj s lamX = some (.cons lamC D1) →
      run (f + 2) (.eval s e lamC) = .ok s lamP →
      getObj s lamP = some (.prim .pLambda) →
      getObj s D1 = some (.cons pA bChain) →
      ∃ sD sE, run (f + 3) (.prim .pDefun s e argsA) = .ok sD s.objs.length ∧
        run (f + 4) (.prim .pDefine s e argsE) = .ok sE s.objs.length ∧
        getObj sD s.objs.length = some (.func pA bChain) ∧
        getObj sE s.objs.length = some (.func pA bChain) ∧
        frameBinding sD e nm = some s.objs.length ∧
        frameBinding sE e nm = some s.objs.length) := by
  constructor
  · intro n s s1 e a carA cdrA fnA p x y h hev hp hargs
    show run (n + 1 + 1) (.eval s e a) = run n (.prim p s1 e cdrA)
    rw [run_eval_call (n + 1) s s1 e a carA cdrA fnA p x y h hev hp hargs]
    exact run_apply_prim n s1 e fnA cdrA p hp
  · intro f s e fr argsA nA rA pA bChain nm argsE nA2 rE lamX lamC D1 lamP
      h0 hfr hargsA hrA hnA hcheck hargsE hrE hnA2 hlamX hlamC hlamP hD1
    have hnil0 : nilA = 0 := rfl
    have hlen0 := getObj_lt h0
    have hlArgsA := getObj_lt hargsA
    have hlnA := getObj_lt hnA
    have hArgsA0 : argsA ≠ nilA := by
      intro he
      rw [he, h0] at hargsA
      simp at hargsA
    have hnAargsA : nA ≠ argsA := by
      intro he
      rw [he, hargsA] at hnA
      simp at hnA
    -- the defun side
    have hlam : primitive_lambda s rA =
        .ok { s with objs := s.objs ++ [.func pA bChain] } s.objs.length := by
      simp [primitive_lambda, hrA, create_function, hcheck, alloc]
    have hdefun := run_prim_defun_step (f + 2) s e argsA nA rA hargsA
    rw [hlam] at hdefun
    simp only [rbind] at hdefun
    have hs3eq : ({ setObj { ({ s with objs := s.objs ++ [.func pA bChain] } : St) with
        objs := ({ s with objs := s.objs ++ [.func pA bChain] } : St).objs ++
          [.cons s.objs.length nilA] } argsA
        (.cons nA ({ s with objs := s.objs ++ [.func pA bChain] } : St).objs.length)
        with mutFlag := true } : St) =
        { setObj { s with objs := s.objs ++ [.func pA bChain, .cons s.objs.length nilA] }
          argsA (.cons nA (s.objs.length + 1)) with mutFlag := true } := by
      simp [setObj]
    rw [hs3eq] at hdefun
    have g1 : getObj ({ setObj { s with
        objs := s.objs ++ [.func pA bChain, .cons s.objs.length nilA] }
        argsA (.cons nA (s.objs.length + 1)) with mutFlag := true } : St) argsA =
        some (.cons nA (s.objs.length + 1)) := by
      rw [getObj_defun_state s argsA nA argsA (.func pA bChain) hlArgsA, if_pos rfl]
    have g2 : getObj ({ setObj { s with
        objs := s.objs ++ [.func pA bChain, .cons s.objs.length nilA] }
        argsA (.cons nA (s.objs.length + 1)) with mutFlag := true } : St)
        (s.objs.length + 1) = some (.cons s.objs.length nilA) := by
      rw [getObj_defun_state s argsA nA (s.objs.length + 1) (.func pA bChain) hlArgsA,
        if_neg (by omega), if_neg (by omega), if_pos rfl]
    have g0 : getObj ({ setObj { s with
        objs := s.objs ++ [.func pA bChain, .cons s.objs.length nilA] }
        argsA (.cons nA (s.objs.length + 1)) with mutFlag := true } : St) nilA =
        some .nil := by
      rw [getObj_defun_state s argsA nA nilA (.func pA bChain) hlArgsA,
        if_neg (fun he => hArgsA0 he.symm), if_neg (by omega), if_neg (by omega)]
      exact h0
    have gnA : getObj ({ setObj { s with
        objs := s.objs ++ [.func pA bChain, .cons s.objs.length nilA] }
        argsA (.cons nA (s.objs.length + 1)) with mutFlag := true } : St) nA =
        some (.sym nm) := by
      rw [getObj_defun_state s argsA nA nA (.func pA bChain) hlArgsA,
        if_neg hnAargsA, if_neg (by omega), if_neg (by omega)]
      exact hnA
    have gF : getObj ({ setObj { s with
        objs := s.objs ++ [.func pA bChain, .cons s.objs.length nilA] }
        argsA (.cons nA (s.objs.length + 1)) with mutFlag := true } : St)
        s.objs.length = some (.func pA bChain) := by
      rw [getObj_defun_state s argsA nA s.objs.length (.func pA bChain) hlArgsA,
        if_neg (by omega), if_pos rfl]
    have hcount3 := count_two _ argsA (s.objs.length + 1) nA s.objs.length g0 g1 g2
    have hdefine3 := run_prim_define_step (f + 1) _ e argsA nA (s.objs.length + 1)
      s.objs.length nilA nm hcount3 g1 gnA g2
    have hevalF := run_eval_func f _ e s.objs.length pA bChain gF
    rw [hevalF] at hdefine3
    simp only [rbind] at hdefine3
    have hD : run (f + 3) (.prim .pDefun s e argsA) =
        .ok (insertFrame ({ setObj { s with
            objs := s.objs ++ [.func pA bChain, .cons s.objs.length nilA] }
            argsA (.cons nA (s.objs.length + 1)) with mutFlag := true } : St)
          e nm s.objs.length) s.objs.length := by
      show run (f + 2 + 1) (.prim .pDefun s e argsA) = _
      rw [hdefun]
      exact hdefine3
    -- the define side
    have hcountE := count_two s argsE rE nA2 lamX h0 hargsE hrE
    have hdefineE := run_prim_define_step (f + 3) s e argsE nA2 rE lamX nilA nm
      hcountE hargsE hnA2 hrE
    have hevalLam : run (f + 3) (.eval s e lamX) =
        .ok { s with objs := s.objs ++ [.func pA bChain] } s.objs.length := by
      have e1 := run_eval_call (f + 2) s s e lamX lamC D1 lamP .pLambda pA bChain
        hlamX hlamC hlamP hD1
      have e2 := run_apply_prim (f + 1) s e lamP D1 .pLambda hlamP
      have e3 : run (f + 1) (.prim .pLambda s e D1) =
          .ok { s with objs := s.objs ++ [.func pA bChain] } s.objs.length := by
        rw [run_prim_lambda f s e D1]
        simp [primitive_lambda, hD1, create_function, hcheck, alloc]
      calc run (f + 3) (.eval s e lamX) = run (f + 2) (.apply s e lamP D1) := e1
        _ = run (f + 1) (.prim .pLambda s e D1) := e2
        _ = _ := e3
    rw [hevalLam] at hdefineE
    simp only [rbind] at hdefineE
    refine ⟨_, _, hD, hdefineE, ?_, ?_, ?_, ?_⟩
    · rw [getObj_insertFrame]
      exact gF
    · rw [getObj_insertFrame]
      exact getObj_append_at s [] (.func pA bChain)
    · exact frameBinding_insert nm s.objs.length hfr
    · exact frameBinding_insert nm s.objs.length hfr

/-- A concrete heap for exercising `defun` against `define`: cell 9 holds the
`defun` argument list `(g (x) 7)`, cell 12 holds the `define` argument list
`(g (lambda (x) 7))`, sharing the name symbol 3, the parameter chain 5 and
the body chain 7; the frame binds `lambda` and `defun` to the primitives. -/
def c4st : St :=
  { objs := [.nil, .tru, .prim .pLambda, .sym "g", .sym "x",
      .cons 4 0, .int 7, .cons 6 0, .cons 5 7, .cons 3 8,
      .cons 15 8, .cons 10 0, .cons 3 11, .prim .pDefun, .cons 16 9,
      .sym "lambda", .sym "defun"],
    envs := [⟨[("lambda", 2), ("defun", 13)], none⟩],
    out := "", mutFlag := false }

/-- Witness for C4: on `c4st`, the call cell 14 `(defun g (x) 7)` dispatches
to the `defun` primitive with the unevaluated argument list 9, and `defun` on
list 9 agrees with `define` on list 12: both return the fresh closure address
17 carrying parameters 5 and body 7, and bind `g` to it in frame 0. -/
theorem C4_defun_define_witness :
    (run 3 (.eval c4st 0 14) = run 1 (.prim .pDefun c4st 0 9)) ∧
    (∃ sD sE, run 3 (.prim .pDefun c4st 0 9) = .ok sD 17 ∧
      run 4 (.prim .pDefine c4st 0 12) = .ok sE 17 ∧
      getObj sD 17 = some (.func 5 7) ∧
      getObj sE 17 = some (.func 5 7) ∧
      frameBinding sD 0 "g" = some 17 ∧
      frameBinding sE 0 "g" = some 17) := by
  constructor
  · exact C4_defun_define.1 1 c4st c4st 0 14 16 9 13 .pDefun 3 8
      (by decide) (by decide) (by decide) (by decide)
  · exact C4_defun_define.2 0 c4st 0 ⟨[("lambda", 2), ("defun", 13)], none⟩
      9 3 8 5 7 "g" 12 3 11 10 15 8 2
      (by decide) (by decide) (by decide) (by decide) (by decide) (by decide)
      (by decide) (by decide) (by decide) (by decide) (by decide) (by decide)
      (by decide)

/-- The state a task starts from. -/
def taskSt : Task → St
  | .eval s _ _ => s
  | .apply s _ _ _ => s
  | .evalArgs s _ _ => s
  | .evalArgsTail s _ _ _ _ => s
  | .progn s _ _ _ => s
  | .andLoop s _ _ => s
  | .orLoop s _ _ => s
  | .whileLoop s _ _ _ => s
  | .prim _ s _ _ => s

/-- The first `k` heap cells, except address `x`, are intact in `s2`. -/
def PresX (k x : Nat) (s s2 : St) : Prop :=
  k ≤ s2.objs.length ∧ ∀ i, i < k → i ≠ x → s2.objs.get? i = s.objs.get? i

/-- A run step is benign: the mutation flag only ever rises, and as long as
it stayed down, every heap cell that existed at the start is intact. -/
def Good (s s2 : St) : Prop :=
  (s.mutFlag = true → s2.mutFlag = true) ∧
  (s2.mutFlag = false → PresX s.objs.length s.objs.length s s2)

theorem Good_refl (s : St) : Good s s :=
  ⟨fun h => h, fun _ => ⟨le_refl _, fun _ _ _ => rfl⟩⟩

theorem Good_trans {s s1 s2 : St} (h1 : Good s s1) (h2 : Good s1 s2) : Good s s2 := by
  refine ⟨fun hf => h2.1 (h1.1 hf), fun hf => ?_⟩
  have hf1 : s1.mutFlag = false := by
    cases hm : s1.mutFlag with
    | false => rfl
    | true => rw [h2.1 hm] at hf; exact absurd hf (by simp)
  obtain ⟨l1, p1⟩ := h1.2 hf1
  obtain ⟨l2, p2⟩ := h2.2 hf
  refine ⟨le_trans l1 l2, fun i hi _ => ?_⟩
  rw [p2 i (lt_of_lt_of_le hi l1) (by omega), p1 i hi (by omega)]

/-- Any state change that leaves the heap and the flag alone is benign. -/
theorem Good_of_eq {s s2 : St} (ho : s2.objs = s.objs) (hf : s2.mutFlag = s.mutFlag) :
    Good s s2 := by
  refine ⟨fun h => by rw [hf, h], fun _ => ⟨by rw [ho], fun i _ _ => by rw [ho]⟩⟩

/-- Allocation only appends, so it is benign. -/
theorem Good_append (s : St) (l : List Obj) : Good s { s with objs := s.objs ++ l } := by
  refine ⟨fun h => h, fun _ => ⟨by simp, fun i hi _ => ?_⟩⟩
  show (s.objs ++ l).get? i = s.objs.get? i
  exact List.get?_append hi

/-- Overwriting a cell that did not exist at the start is benign. -/
theorem Good_setObj {s s1 : St} (a : Nat) (o : Obj) (hg : Good s s1)
    (ha : s.objs.length ≤ a) : Good s (setObj s1 a o) := by
  refine ⟨fun h => hg.1 h, fun hf => ?_⟩
  obtain ⟨l1, p1⟩ := hg.2 hf
  refine ⟨by simpa [setObj] using l1, fun i hi hix => ?_⟩
  show (s1.objs.set a o).get? i = s.objs.get? i
  rw [List.get?_eq_getElem?, List.getElem?_set_ne (by omega), ← List.get?_eq_getElem?]
  exact p1 i hi hix

theorem insertFrame_mutFlag (s : St) (e : Nat) (k : String) (v : Nat) :
    (insertFrame s e k v).mutFlag = s.mutFlag := by
  unfold insertFrame
  cases s.envs.get? e <;> rfl

theorem insertFrame_objs (s : St) (e : Nat) (k : String) (v : Nat) :
    (insertFrame s e k v).objs = s.objs := by
  unfold insertFrame
  cases s.envs.get? e <;> rfl

theorem Good_insertFrame (s : St) (e : Nat) (k : String) (v : Nat) :
    Good s (insertFrame s e k v) :=
  Good_of_eq (insertFrame_objs s e k v) (insertFrame_mutFlag s e k v)

/-- Sequencing: a successful `rbind` factors into a successful first stage and
a successful continuation. -/
theorem rbind_ok {α β : Type} {r : Res α} {k : St → α → Res β} {s2 : St} {v : β}
    (h : rbind r k = .ok s2 v) : ∃ s1 v1, r = .ok s1 v1 ∧ k s1 v1 = .ok s2 v := by
  cases r with
  | ok s1 v1 => exact ⟨s1, v1, rfl, h⟩
  | err m => exact absurd h (by simp [rbind])
  | crash => exact absurd h (by simp [rbind])
  | timeout => exact absurd h (by simp [rbind])

/-- The binding loop touches only the environment frames, never the heap or
the flag. -/
theorem bindAux_state : ∀ (n : Nat) (s : St) (eid params args : Nat) (s3 : St) (u : Unit),
    bindAux n s eid params args = .ok s3 u →
    s3.objs = s.objs ∧ s3.mutFlag = s.mutFlag := by
  intro n
  induction n with
  | zero =>
    intro s eid params args s3 u h
    exact absurd h (by simp [bindAux])
  | succ n ih =>
    intro s eid params args s3 u h
    simp only [bindAux] at h
    split at h
    · split at h
      · split at h
        · obtain ⟨ho, hf⟩ := ih _ _ _ _ _ _ h
          rw [insertFrame_objs] at ho
          rw [insertFrame_mutFlag] at hf
          exact ⟨ho, hf⟩
        · exact absurd h (by simp)
      · exact absurd h (by simp)
    · cases h
      exact ⟨rfl, rfl⟩
    · exact absurd h (by simp)

/-- In a heap whose `Nil` cell is a pair, every chain count is negative. -/
theorem countAux_neg : ∀ (n : Nat) (s : St) (x d : Nat),
    getObj s nilA = some (.cons x d) →
    ∀ a r, countAux n s a = some r → r < 0 := by
  intro n s
  induction n with
  | zero =>
    intro x d h0 a r h
    exact absurd h (by simp [countAux])
  | succ n ih =>
    intro x d h0 a r h
    simp only [countAux] at h
    split at h
    · split at h
      · next r2 hr2 =>
          have hneg := ih x d h0 _ r2 hr2
          rw [if_pos hneg] at h
          cases h
          exact hneg
      · exact absurd h (by simp)
    · next o ho hne =>
        by_cases ha : a = nilA
        · rw [ha, h0] at hne
          injection hne with h2
          exact absurd h2.symm (fun hh => ho x d hh)
        · rw [if_neg ha] at h
          cases h
          decide
    · exact absurd h (by simp)

/-- No argument chain starting at the `Nil` address counts as two. -/
theorem count_nilA_ne_two (s : St) : count s nilA ≠ some 2 := by
  intro h
  rw [count] at h
  cases hc : getObj s nilA with
  | none => simp [countAux, hc] at h
  | some o =>
    cases o with
    | cons x d =>
      have := countAux_neg (s.objs.length + 1) s x d hc nilA 2 h
      omega
    | nil => simp [countAux, hc] at h
    | tru => simp [countAux, hc] at h
    | int i => simp [countAux, hc] at h
    | sym nm => simp [countAux, hc] at h
    | prim p => simp [countAux, hc] at h
    | func a b => simp [countAux, hc] at h

/-- From flag monotonicity, a lowered final flag means it was never raised. -/
theorem flag_back {s1 s2 : St} (mono : s1.mutFlag = true → s2.mutFlag = true)
    (hf : s2.mutFlag = false) : s1.mutFlag = false := by
  cases hm : s1.mutFlag with
  | false => rfl
  | true => rw [mono hm] at hf; exact absurd hf (by simp)

/-- Heap preservation along any run of the interpreter: the mutation flag
only ever rises, and a run that finishes with the flag still down has not
changed any heap cell that existed when it started.  The tail loop of
`eval_args` (core.c:216) is the one routine allowed to write an existing
cell -- the fresh cell `last` it is chaining onto -- and the argument-list
builders return `Nil` or a fresh address. -/
theorem run_pres : ∀ (n : Nat) (t : Task) (s2 : St) (v : Nat), run n t = .ok s2 v →
    match t with
    | .evalArgsTail s _ _ last first =>
        (s.mutFlag = true → s2.mutFlag = true) ∧
        (s2.mutFlag = false → PresX s.objs.length last s s2) ∧ v = first
    | .evalArgs s _ a =>
        Good s s2 ∧
        (s2.mutFlag = false → (a = nilA ∧ v = nilA) ∨ s.objs.length ≤ v)
    | t => Good (taskSt t) s2 := by
  intro n
  induction n with
  | zero =>
    intro t s2 v h
    exact absurd h (by simp [run])
  | succ n ih =>
    intro t s2 v h
    cases t with
    | eval s e a =>
      show Good s s2
      simp only [run] at h
      split at h
      · cases h; exact Good_refl _
      · cases h; exact Good_refl _
      · cases h; exact Good_refl _
      · cases h; exact Good_refl _
      · obtain ⟨s1, fnA, h1, h2⟩ := rbind_ok h
        have g1 : Good s s1 := ih _ s1 fnA h1
        try simp only [] at h2
        split at h2
        · split at h2
          · exact Good_trans g1 (ih _ s2 v h2)
          · exact Good_trans g1 (ih _ s2 v h2)
          · simp at h2
          · simp at h2
        · split at h2
          · exact Good_trans g1 (ih _ s2 v h2)
          · exact Good_trans g1 (ih _ s2 v h2)
          · simp at h2
          · simp at h2
        · simp at h2
        · simp at h2
      · split at h
        · cases h; exact Good_refl _
        · simp at h
        · simp at h
      · simp at h
      · simp at h
    | apply s e f args =>
      show Good s s2
      simp only [run] at h
      split at h
      · exact ih _ s2 v h
      · obtain ⟨s1, vargs, h1, h2⟩ := rbind_ok h
        have g1 : Good s s1 ∧
            (s1.mutFlag = false → (args = nilA ∧ vargs = nilA) ∨
              s.objs.length ≤ vargs) := ih _ s1 vargs h1
        try simp only [] at h2
        obtain ⟨s3, u, h3, h4⟩ := rbind_ok h2
        simp only [bindParams] at h3
        obtain ⟨ho3, hf3⟩ := bindAux_state _ _ _ _ _ _ _ h3
        have g2 : Good s1 ({ s1 with envs := s1.envs ++ [⟨[], some e⟩] } : St) :=
          Good_of_eq rfl rfl
        have g3 : Good ({ s1 with envs := s1.envs ++ [⟨[], some e⟩] } : St) s3 :=
          Good_of_eq ho3 hf3
        have g4 : Good s3 s2 := ih _ s2 v h4
        exact Good_trans g1.1 (Good_trans g2 (Good_trans g3 g4))
      · simp at h
      · simp at h
    | evalArgs s e a =>
      show Good s s2 ∧
        (s2.mutFlag = false → (a = nilA ∧ v = nilA) ∨ s.objs.length ≤ v)
      simp only [run] at h
      split at h
      · next ha =>
        cases h
        exact ⟨Good_refl _, fun _ => Or.inl ⟨ha, rfl⟩⟩
      · split at h
        · obtain ⟨s1, v1, h1, h2⟩ := rbind_ok h
          have g1 : Good s s1 := ih _ s1 v1 h1
          simp only [alloc] at h2
          have ihT := ih (.evalArgsTail ({ s1 with objs := s1.objs ++ [.cons v1 nilA] } : St)
            e _ s1.objs.length s1.objs.length) s2 v h2
          obtain ⟨mono2, pres2, hvfirst⟩ := ihT
          have monoc : s1.mutFlag = true → s2.mutFlag = true := mono2
          refine ⟨⟨fun hf => monoc (g1.1 hf), fun hf => ?_⟩, fun hf => ?_⟩
          · have hf1 : s1.mutFlag = false := flag_back monoc hf
            obtain ⟨l1, p1⟩ := g1.2 hf1
            obtain ⟨lT, pT⟩ := pres2 hf
            have lT2 : s1.objs.length + 1 ≤ s2.objs.length := by
              simpa [setObj] using lT
            refine ⟨by omega, fun i hi _ => ?_⟩
            have hgi := pT i (by
              show i < (s1.objs ++ [Obj.cons v1 nilA]).length
              simp only [List.length_append, List.length_cons, List.length_nil]
              omega) (by omega)
            rw [hgi]
            show (s1.objs ++ [Obj.cons v1 nilA]).get? i = s.objs.get? i
            rw [List.get?_append (by omega)]
            exact p1 i hi (by omega)
          · have hf1 : s1.mutFlag = false := flag_back monoc hf
            have l1 := (g1.2 hf1).1
            right
            omega
        · simp at h
        · simp at h
    | evalArgsTail s e a last first =>
      show (s.mutFlag = true → s2.mutFlag = true) ∧
        (s2.mutFlag = false → PresX s.objs.length last s s2) ∧ v = first
      simp only [run] at h
      split at h
      · cases h
        exact ⟨fun hf => hf, fun _ => ⟨le_refl _, fun _ _ _ => rfl⟩, rfl⟩
      · split at h
        · obtain ⟨s1, v1, h1, h2⟩ := rbind_ok h
          have g1 : Good s s1 := ih _ s1 v1 h1
          simp only [alloc] at h2
          split at h2
          · have ihT := ih (.evalArgsTail (setObj
              ({ s1 with objs := s1.objs ++ [.cons v1 nilA] } : St) last
                (.cons _ s1.objs.length)) e _ s1.objs.length first) s2 v h2
            obtain ⟨mono2, pres2, hvfirst⟩ := ihT
            have monoc : s1.mutFlag = true → s2.mutFlag = true := mono2
            refine ⟨fun hf => monoc (g1.1 hf), fun hf => ?_, hvfirst⟩
            have hf1 : s1.mutFlag = false := flag_back monoc hf
            obtain ⟨l1, p1⟩ := g1.2 hf1
            obtain ⟨lT, pT⟩ := pres2 hf
            have lT2 : s1.objs.length + 1 ≤ s2.objs.length := by
              simpa [setObj] using lT
            refine ⟨by omega, fun i hi hix => ?_⟩
            have hgi := pT i (by
              show i < ((s1.objs ++ [Obj.cons v1 nilA]).set last _).length
              simp only [List.length_set, List.length_append, List.length_cons,
                List.length_nil]
              omega) (by omega)
            rw [hgi]
            show ((s1.objs ++ [Obj.cons v1 nilA]).set last _).get? i = s.objs.get? i
            rw [List.get?_eq_getElem?, List.getElem?_set_ne (by omega),
              ← List.get?_eq_getElem?]
            rw [List.get?_append (by omega)]
            exact p1 i hi (by omega)
          · simp at h2
        · simp at h
        · simp at h
    | progn s e a last =>
      show Good s s2
      simp only [run] at h
      split at h
      · split at h
        · cases h; exact Good_refl _
        · simp at h
      · split at h
        · obtain ⟨s1, v1, h1, h2⟩ := rbind_ok h
          try simp only [] at h2
          exact Good_trans (ih _ s1 v1 h1) (ih _ s2 v h2)
        · simp at h
        · simp at h
    | andLoop s e a =>
      show Good s s2
      simp only [run] at h
      split at h
      · cases h; exact Good_refl _
      · split at h
        · obtain ⟨s1, v1, h1, h2⟩ := rbind_ok h
          have g1 : Good s s1 := ih _ s1 v1 h1
          try simp only [] at h2
          split at h2
          · cases h2; exact g1
          · exact Good_trans g1 (ih _ s2 v h2)
        · simp at h
        · simp at h
    | orLoop s e a =>
      show Good s s2
      simp only [run] at h
      split at h
      · cases h; exact Good_refl _
      · split at h
        · obtain ⟨s1, v1, h1, h2⟩ := rbind_ok h
          have g1 : Good s s1 := ih _ s1 v1 h1
          try simp only [] at h2
          split at h2
          · exact Good_trans g1 (ih _ s2 v h2)
          · cases h2; exact g1
        · simp at h
        · simp at h
    | whileLoop s e c body =>
      show Good s s2
      simp only [run] at h
      obtain ⟨s1, v1, h1, h2⟩ := rbind_ok h
      have g1 : Good s s1 := ih _ s1 v1 h1
      try simp only [] at h2
      split at h2
      · cases h2; exact g1
      · obtain ⟨sB, vB, hB1, hB2⟩ := rbind_ok h2
        have gB : Good s1 sB ∧ (sB.mutFlag = false → (body = nilA ∧ vB = nilA) ∨
          s1.objs.length ≤ vB) := ih _ sB vB hB1
        exact Good_trans g1 (Good_trans gB.1 (ih _ s2 v hB2))
    | prim p s e args =>
      show Good s s2
      cases p with
      | pAnd =>
        simp only [run] at h
        exact ih _ s2 v h
      | pOr =>
        simp only [run] at h
        exact ih _ s2 v h
      | pCar =>
        simp only [run] at h
        obtain ⟨s1, va, h1, h2⟩ := rbind_ok h
        have g1 : Good s s1 ∧ (s1.mutFlag = false → (args = nilA ∧ va = nilA) ∨
          s.objs.length ≤ va) := ih _ s1 va h1
        try simp only [] at h2
        split at h2
        · split at h2
          · split at h2
            · cases h2; exact g1.1
            · simp at h2
          · simp at h2
          · simp at h2
        · simp at h2
        · simp at h2
      | pCdr =>
        simp only [run] at h
        obtain ⟨s1, va, h1, h2⟩ := rbind_ok h
        have g1 : Good s s1 ∧ (s1.mutFlag = false → (args = nilA ∧ va = nilA) ∨
          s.objs.length ≤ va) := ih _ s1 va h1
        try simp only [] at h2
        split at h2
        · split at h2
          · split at h2
            · cases h2; exact g1.1
            · simp at h2
          · simp at h2
          · simp at h2
        · simp at h2
        · simp at h2
      | pCons =>
        simp only [run] at h
        split at h
        · next hcnt =>
          obtain ⟨s1, va, h1, h2⟩ := rbind_ok h
          have g1 : Good s s1 ∧ (s1.mutFlag = false → (args = nilA ∧ va = nilA) ∨
            s.objs.length ≤ va) := ih _ s1 va h1
          try simp only [] at h2
          split at h2
          · split at h2
            · cases h2
              by_cases hflag : s1.mutFlag = false
              · rcases g1.2 hflag with ⟨hnil, _⟩ | hfresh
                · exact absurd (hnil ▸ hcnt) (count_nilA_ne_two s)
                · exact Good_setObj _ _ g1.1 hfresh
              · refine ⟨g1.1.1, fun hf => ?_⟩
                exact absurd hf hflag
            · simp at h2
          · simp at h2
        · simp at h
        · simp at h
      | pDefine =>
        simp only [run] at h
        split at h
        · split at h
          · split at h
            · split at h
              · obtain ⟨s1, v1, h1, h2⟩ := rbind_ok h
                try simp only [] at h2
                cases h2
                exact Good_trans (ih _ s1 _ h1) (Good_insertFrame s1 e _ _)
              · simp at h
            · simp at h
            · simp at h
          · simp at h
        · simp at h
        · simp at h
      | pDefun =>
        simp only [run] at h
        split at h
        · obtain ⟨s1, fnA, h1, h2⟩ := rbind_ok h
          simp only [alloc] at h2
          have g2 := ih _ s2 v h2
          have hmono : s2.mutFlag = true := g2.1 rfl
          refine ⟨fun _ => hmono, fun hf => ?_⟩
          rw [hmono] at hf
          exact absurd hf (by simp)
        · simp at h
      | pEq =>
        simp only [run] at h
        split at h
        · obtain ⟨s1, va, h1, h2⟩ := rbind_ok h
          have g1 : Good s s1 ∧ (s1.mutFlag = false → (args = nilA ∧ va = nilA) ∨
            s.objs.length ≤ va) := ih _ s1 va h1
          try simp only [] at h2
          split at h2
          · split at h2
            · split at h2
              · split at h2
                · cases h2; exact g1.1
                · simp at h2
                · simp at h2
              · simp at h2
              · simp at h2
            · simp at h2
          · simp at h2
        · simp at h
        · simp at h
      | pGt =>
        simp only [run] at h
        split at h
        · obtain ⟨s1, va, h1, h2⟩ := rbind_ok h
          have g1 : Good s s1 ∧ (s1.mutFlag = false → (args = nilA ∧ va = nilA) ∨
            s.objs.length ≤ va) := ih _ s1 va h1
          try simp only [] at h2
          split at h2
          · split at h2
            · split at h2
              · split at h2
                · cases h2; exact g1.1
                · simp at h2
                · simp at h2
              · simp at h2
              · simp at h2
            · simp at h2
          · simp at h2
        · simp at h
        · simp at h
      | pIf =>
        simp only [run] at h
        split at h
        · split at h
          · simp at h
          · split at h
            · obtain ⟨s1, v1, h1, h2⟩ := rbind_ok h
              have g1 : Good s s1 := ih _ s1 v1 h1
              try simp only [] at h2
              split at h2
              · split at h2
                · exact Good_trans g1 (ih _ s2 v h2)
                · simp at h2
              · split at h2
                · cases h2; exact g1
                · split at h2
                  · split at h2
                    · exact Good_trans g1 (ih _ s2 v h2)
                    · simp at h2
                  · simp at h2
            · simp at h
        · simp at h
      | pLt =>
        simp only [run] at h
        split at h
        · obtain ⟨s1, va, h1, h2⟩ := rbind_ok h
          have g1 : Good s s1 ∧ (s1.mutFlag = false → (args = nilA ∧ va = nilA) ∨
            s.objs.length ≤ va) := ih _ s1 va h1
          try simp only [] at h2
          split at h2
          · split at h2
            · split at h2
              · split at h2
                · cases h2; exact g1.1
                · simp at h2
                · simp at h2
              · simp at h2
              · simp at h2
            · simp at h2
          · simp at h2
        · simp at h
        · simp at h
      | pLambda =>
        simp only [run, primitive_lambda] at h
        split at h
        · simp only [create_function] at h
          split at h
          · simp only [alloc] at h
            cases h
            exact Good_append _ _
          · simp at h
          · simp at h
        · simp at h
      | pMinus =>
        simp only [run] at h
        obtain ⟨s1, va, h1, h2⟩ := rbind_ok h
        have g1 : Good s s1 ∧ (s1.mutFlag = false → (args = nilA ∧ va = nilA) ∨
          s.objs.length ≤ va) := ih _ s1 va h1
        simp only [alloc] at h2
        split at h2
        · simp at h2
        · split at h2
          · split at h2
            · split at h2
              · cases h2
                exact Good_trans g1.1 (Good_append s1 _)
              · split at h2
                · cases h2
                  exact Good_trans g1.1 (Good_append s1 _)
                · simp at h2
                · simp at h2
                · simp at h2
            · simp at h2
            · simp at h2
          · simp at h2
          · simp at h2
      | pMulti =>
        simp only [run] at h
        split at h
        · split at h
          · simp at h
          · obtain ⟨s1, va, h1, h2⟩ := rbind_ok h
            have g1 : Good s s1 ∧ (s1.mutFlag = false → (args = nilA ∧ va = nilA) ∨
              s.objs.length ≤ va) := ih _ s1 va h1
            simp only [alloc] at h2
            split at h2
            · split at h2
              · split at h2
                · cases h2
                  exact Good_trans g1.1 (Good_append s1 _)
                · simp at h2
                · simp at h2
                · simp at h2
              · simp at h2
              · simp at h2
            · simp at h2
        · simp at h
      | pObjEq =>
        simp only [run] at h
        split at h
        · obtain ⟨s1, va, h1, h2⟩ := rbind_ok h
          have g1 : Good s s1 ∧ (s1.mutFlag = false → (args = nilA ∧ va = nilA) ∨
            s.objs.length ≤ va) := ih _ s1 va h1
          try simp only [] at h2
          split at h2
          · split at h2
            · cases h2; exact g1.1
            · simp at h2
          · simp at h2
        · simp at h
        · simp at h
      | pPlus =>
        simp only [run] at h
        obtain ⟨s1, va, h1, h2⟩ := rbind_ok h
        have g1 : Good s s1 ∧ (s1.mutFlag = false → (args = nilA ∧ va = nilA) ∨
          s.objs.length ≤ va) := ih _ s1 va h1
        simp only [alloc] at h2
        split at h2
        · cases h2
          exact Good_trans g1.1 (Good_append s1 _)
        · simp at h2
        · simp at h2
        · simp at h2
      | pPrintln =>
        simp only [run] at h
        split at h
        · split at h
          · obtain ⟨s1, v1, h1, h2⟩ := rbind_ok h
            have g1 : Good s s1 := ih _ s1 v1 h1
            try simp only [] at h2
            split at h2
            · cases h2
              exact Good_trans g1 (Good_of_eq rfl rfl)
            · simp at h2
          · simp at h
        · simp at h
        · simp at h
      | pProgn =>
        simp only [run] at h
        exact ih _ s2 v h
      | pSetcar =>
        simp only [run] at h
        obtain ⟨s1, va, h1, h2⟩ := rbind_ok h
        try simp only [] at h2
        split at h2
        · split at h2
          · split at h2
            · split at h2
              · cases h2
                refine ⟨fun _ => rfl, fun hf => ?_⟩
                simp at hf
              · simp at h2
            · simp at h2
            · simp at h2
          · simp at h2
        · simp at h2
        · simp at h2
      | pQuote =>
        simp only [run] at h
        split at h
        · split at h
          · cases h; exact Good_refl _
          · simp at h
        · simp at h
        · simp at h
      | pWhile =>
        simp only [run] at h
        split at h
        · split at h
          · simp at h
          · split at h
            · exact ih _ s2 v h
            · simp at h
        · simp at h

/-- The twelve primitives named by the frame-effect claim. -/
def c9prims : List PrimName :=
  [.pCar, .pCdr, .pCons, .pPlus, .pMinus, .pMulti, .pEq, .pLt, .pGt,
   .pObjEq, .pQuote, .pPrintln]

/-- A heap holding the pair `(7)` at address 8, bound to the symbol `p`, and
the argument list `((setcar p 9))` at address 11, ready to be handed to the
`car` primitive. -/
def c9cst : St :=
  { objs := [.nil, .tru, .prim .pSetcar, .sym "setcar", .sym "p",
      .int 7, .int 9, .cons 6 0, .cons 5 0, .cons 4 7,
      .cons 3 9, .cons 10 0],
    envs := [⟨[("setcar", 2), ("p", 8)], none⟩],
    out := "", mutFlag := false }

/-- Counterexample to C9 as stated: `car` is one of the listed primitives,
yet evaluating `(car (setcar p 9))` succeeds and overwrites the car field of
the pre-existing pair at address 8 -- the argument expressions are evaluated
first and may themselves run `setcar`, so evaluating a listed primitive can
modify a pre-existing pair. -/
theorem C9_counterexample :
    PrimName.pCar ∈ c9prims ∧
    getObj c9cst 8 = some (.cons 5 0) ∧
    (resState (run 15 (.prim .pCar c9cst 0 11))).map (fun s1 => getObj s1 8) =
      some (some (.cons 6 0)) ∧
    resValue (run 15 (.prim .pCar c9cst 0 11))  = some 6 ∧
    Obj.cons 5 0 ≠ Obj.cons 6 0 := by
  refine ⟨by decide, by decide, by decide, by decide, by decide⟩

/-- C9: evaluating any of the listed primitives leaves the car and cdr
fields of every pre-existing pair unchanged, provided the evaluation (which
first evaluates the argument expressions) executes no `setcar` and no
`defun` write -- the two operations that overwrite fields of existing cells,
tracked by the ghost flag `mutFlag`.  The heap only grows, and every cell
that existed before the call, pairs included, reads back unchanged. -/
theorem C9_primitives_preserve_pairs (n : Nat) (p : PrimName) (s : St)
    (e args : Nat) (s1 : St) (v : Nat)
    (hp : p ∈ c9prims)
    (hrun : run n (.prim p s e args) = .ok s1 v)
    (hflag : s1.mutFlag = false) :
    s.objs.length ≤ s1.objs.length ∧
    ∀ i a d, getObj s i = some (.cons a d) → getObj s1 i = some (.cons a d) := by
  have hg : Good s s1 := run_pres n (.prim p s e args) s1 v hrun
  obtain ⟨hlen, hpres⟩ := hg.2 hflag
  refine ⟨hlen, fun i a d hc => ?_⟩
  have hi : i < s.objs.length := getObj_lt hc
  show s1.objs.get? i = some (Obj.cons a d)
  rw [hpres i hi (by omega)]
  exact hc

/-- A heap with a pre-existing pair at address 6 and the argument list
`(1 2)` at address 5 for the `+` primitive. -/
def c9wst : St :=
  { objs := [.nil, .tru, .int 1, .int 2, .cons 3 0, .cons 2 4, .cons 2 3],
    envs := [⟨[], none⟩],
    out := "", mutFlag := false }

/-- The state `(+ 1 2)` finishes in from `c9wst`: two fresh argument cells
and the fresh sum cell are appended, nothing else changes. -/
def c9wfinal : St :=
  { objs := [.nil, .tru, .int 1, .int 2, .cons 3 0, .cons 2 4, .cons 2 3,
      .cons 2 8, .cons 3 0, .int 3],
    envs := [⟨[], none⟩],
    out := "", mutFlag := false }

/-- Witness for C9: `+` is listed, `(+ 1 2)` from `c9wst` succeeds with the
flag still down, and every pre-existing pair is intact. -/
theorem C9_primitives_preserve_pairs_witness :
    c9wst.objs.length ≤ c9wfinal.objs.length ∧
    ∀ i a d, getObj c9wst i = some (.cons a d) →
      getObj c9wfinal i = some (.cons a d) :=
  C9_primitives_preserve_pairs 10 .pPlus c9wst 0 5 c9wfinal 9
    (by decide) (by decide) (by decide)

end Lsp



